import Mathlib

/-
Verification of the evaluation/analytics/deduction pipeline of the
AgentBenchMark repository.

The Python sources are shallowly embedded over ℚ:
  * Python floats are modelled as exact rationals (the decimal literals
    0.5, 0.3, 2.0, … appearing in the source denote the corresponding
    rationals here);
  * Python's `round(x, 2)` is modelled by exact round-half-even at two
    decimal places (`round2` below);
  * Python dictionaries are modelled as association lists in insertion
    order: an update to a present key rewrites the value in place, a new
    key is appended at the end (`upsert` below), which is exactly the
    CPython `dict` iteration-order contract;
  * `numpy.std` (population standard deviation) is the square root of
    the population variance; since square roots of rationals are in
    general irrational, the embedding stores the variance and performs
    the source's comparisons against `mean ± 2·std` in the exact
    squared form.  The lemmas `ltMeanSub2Std_iff_real` and
    `gtMeanAdd2Std_iff_real` prove that the squared form is equivalent
    to the original real-valued comparison.
-/

namespace ABench

/-- Round half to even to the nearest integer (the tie-breaking rule used
by Python's builtin `round`), modelled exactly over ℚ. -/
def rhe (q : ℚ) : ℤ :=
  if q - (⌊q⌋ : ℚ) < 1/2 then ⌊q⌋
  else if 1/2 < q - (⌊q⌋ : ℚ) then ⌊q⌋ + 1
  else if ⌊q⌋ % 2 = 0 then ⌊q⌋ else ⌊q⌋ + 1

/-- Python's `round(x, 2)` modelled over ℚ: round half to even at two
decimal places. -/
def round2 (q : ℚ) : ℚ := ((rhe (q * 100) : ℤ) : ℚ) / 100

theorem rhe_intCast (n : ℤ) : rhe (n : ℚ) = n := by
  simp [rhe, Int.floor_intCast]

theorem rhe_ge_floor (q : ℚ) : ⌊q⌋ ≤ rhe q := by
  unfold rhe
  split_ifs <;> omega

theorem rhe_le_floor_add_one (q : ℚ) : rhe q ≤ ⌊q⌋ + 1 := by
  unfold rhe
  split_ifs <;> omega

theorem rhe_nonneg {q : ℚ} (h : 0 ≤ q) : 0 ≤ rhe q := by
  have h1 : (0 : ℤ) ≤ ⌊q⌋ := Int.floor_nonneg.mpr h
  have h2 := rhe_ge_floor q
  omega

theorem rhe_le_int {q : ℚ} {n : ℤ} (h : q ≤ (n : ℚ)) : rhe q ≤ n := by
  have hf : ⌊q⌋ ≤ n := by
    have := Int.floor_mono h
    rwa [Int.floor_intCast] at this
  rcases lt_or_eq_of_le hf with hlt | heq
  · have := rhe_le_floor_add_one q
    omega
  · have hq : q = (n : ℚ) := by
      have h1 : (n : ℚ) ≤ q := by
        have := Int.floor_le q
        rw [heq] at this
        exact this
      linarith
    rw [hq, rhe_intCast]

theorem round2_nonneg {q : ℚ} (h : 0 ≤ q) : 0 ≤ round2 q := by
  unfold round2
  have : (0 : ℤ) ≤ rhe (q * 100) := rhe_nonneg (by positivity)
  positivity

theorem round2_le_100 {q : ℚ} (h : q ≤ 100) : round2 q ≤ 100 := by
  unfold round2
  have h1 : q * 100 ≤ ((10000 : ℤ) : ℚ) := by push_cast; linarith
  have h2 : rhe (q * 100) ≤ 10000 := rhe_le_int h1
  have h3 : ((rhe (q * 100) : ℤ) : ℚ) ≤ 10000 := by exact_mod_cast h2
  linarith

theorem round2_intCast (n : ℤ) : round2 (n : ℚ) = n := by
  unfold round2
  rw [show ((n : ℚ)) * 100 = ((n * 100 : ℤ) : ℚ) by push_cast; ring, rhe_intCast]
  push_cast
  ring

/-- Round half to even mirrors subtraction from an even integer. -/
theorem rhe_even_sub {n : ℤ} (hn : n % 2 = 0) (q : ℚ) :
    rhe ((n : ℚ) - q) = n - rhe q := by
  have hfl := Int.floor_le q
  have hfu := Int.lt_floor_add_one q
  rcases eq_or_lt_of_le hfl with h0 | hpos
  · -- integer case: q equals its floor
    rw [← h0]
    rw [show ((n : ℚ)) - ((⌊q⌋ : ℤ) : ℚ) = ((n - ⌊q⌋ : ℤ) : ℚ) by push_cast; ring]
    rw [rhe_intCast, rhe_intCast]
  · -- q has a nonzero fractional part
    have hfloor : ⌊(n : ℚ) - q⌋ = n - ⌊q⌋ - 1 := by
      rw [Int.floor_eq_iff]
      constructor
      · push_cast
        linarith
      · push_cast
        linarith
    unfold rhe
    rw [hfloor]
    rw [show ((n : ℚ)) - q - ((n - ⌊q⌋ - 1 : ℤ) : ℚ) = 1 - (q - (⌊q⌋ : ℚ)) by
      push_cast; ring]
    split_ifs <;> first | omega | linarith

theorem round2_eq_down {q : ℚ} {n : ℤ} (hf : ⌊q * 100⌋ = n)
    (h : q * 100 - (n : ℚ) < 1/2) : round2 q = (n : ℚ) / 100 := by
  unfold round2 rhe
  rw [hf, if_pos h]

theorem round2_eq_up {q : ℚ} {n : ℤ} (hf : ⌊q * 100⌋ = n)
    (h : 1/2 < q * 100 - (n : ℚ)) : round2 q = ((n : ℚ) + 1) / 100 := by
  unfold round2 rhe
  rw [hf, if_neg (by linarith), if_pos h]
  push_cast
  ring

/-- Python's two-decimal rounding commutes with subtraction from 100:
`round(100 - x, 2) = 100 - round(x, 2)`. -/
theorem round2_100_sub (q : ℚ) : round2 (100 - q) = 100 - round2 q := by
  unfold round2
  rw [show (100 - q) * 100 = ((10000 : ℤ) : ℚ) - q * 100 by push_cast; ring]
  rw [rhe_even_sub (by norm_num) (q * 100)]
  push_cast
  ring

/-! ### Python dictionaries as insertion-ordered association lists -/

/-- First-match lookup in an association list (CPython `dict` access). -/
def alookup {β : Type} (k : String) : List (String × β) → Option β
  | [] => none
  | p :: m => if p.1 = k then some p.2 else alookup k m

/-- CPython `dict` write `d[k] = f(d.get(k))`: a present key keeps its
position and gets the new value, an absent key is appended at the end. -/
def upsert {β : Type} (m : List (String × β)) (k : String) (f : Option β → β) :
    List (String × β) :=
  if (alookup k m).isSome then
    m.map (fun p => if p.1 = k then (k, f (some p.2)) else p)
  else m ++ [(k, f none)]

theorem alookup_append {β : Type} (k : String) (m1 m2 : List (String × β)) :
    alookup k (m1 ++ m2) =
      match alookup k m1 with
      | some v => some v
      | none => alookup k m2 := by
  induction m1 with
  | nil => simp [alookup]
  | cons p m ih =>
    by_cases h : p.1 = k
    · simp [alookup, h]
    · simp [alookup, h, ih]

theorem alookup_eq_none_iff {β : Type} (k : String) (m : List (String × β)) :
    alookup k m = none ↔ k ∉ m.map Prod.fst := by
  induction m with
  | nil => simp [alookup]
  | cons p m ih =>
    by_cases h : p.1 = k
    · simp [alookup, h]
    · have h2 : ¬ k = p.1 := fun he => h he.symm
      simp [alookup, h, h2, ih]

theorem alookup_mapUpdate {β : Type} (m : List (String × β)) (k k2 : String)
    (f : Option β → β) :
    alookup k2 (m.map (fun p => if p.1 = k then (k, f (some p.2)) else p)) =
      if k = k2 then (alookup k m).map (fun v => f (some v))
      else alookup k2 m := by
  induction m with
  | nil => simp [alookup]
  | cons p m ih =>
    by_cases hk : k = k2
    · subst hk
      by_cases hp : p.1 = k <;> simp [alookup, hp, ih]
    · by_cases hp : p.1 = k <;> simp [alookup, hp, hk, ih]

theorem alookup_upsert {β : Type} (m : List (String × β)) (k k2 : String)
    (f : Option β → β) :
    alookup k2 (upsert m k f) =
      if k = k2 then some (f (alookup k m)) else alookup k2 m := by
  unfold upsert
  by_cases hs : (alookup k m).isSome
  · rw [if_pos hs, alookup_mapUpdate]
    obtain ⟨v, hv⟩ := Option.isSome_iff_exists.mp hs
    rw [hv]
    by_cases hk : k = k2 <;> simp [hk]
  · rw [if_neg hs, alookup_append]
    have hnone : alookup k m = none := Option.not_isSome_iff_eq_none.mp hs
    by_cases hk : k = k2
    · subst hk
      simp [hnone, alookup]
    · cases h2m : alookup k2 m <;> simp [alookup, hk, h2m, hnone]

theorem keys_upsert {β : Type} (m : List (String × β)) (k : String)
    (f : Option β → β) :
    (upsert m k f).map Prod.fst =
      if (alookup k m).isSome then m.map Prod.fst
      else m.map Prod.fst ++ [k] := by
  unfold upsert
  by_cases hs : (alookup k m).isSome
  · rw [if_pos hs, if_pos hs, List.map_map]
    apply List.map_congr_left
    intro p _
    by_cases hp : p.1 = k
    · simp [hp]
    · simp [hp]
  · rw [if_neg hs, if_neg hs]
    simp

theorem nodupKeys_upsert {β : Type} {m : List (String × β)} (k : String)
    (f : Option β → β) (h : (m.map Prod.fst).Nodup) :
    ((upsert m k f).map Prod.fst).Nodup := by
  rw [keys_upsert]
  by_cases hs : (alookup k m).isSome
  · rwa [if_pos hs]
  · rw [if_neg hs]
    have hnone : alookup k m = none := by
      cases h2 : alookup k m
      · rfl
      · rw [h2] at hs; simp at hs
    have hk : k ∉ m.map Prod.fst := (alookup_eq_none_iff k m).mp hnone
    simp [List.nodup_append, h, hk]

theorem alookup_of_mem_of_nodup {β : Type} {m : List (String × β)} {k : String}
    {v : β} (hmem : (k, v) ∈ m) (hnd : (m.map Prod.fst).Nodup) :
    alookup k m = some v := by
  induction m with
  | nil => simp at hmem
  | cons p m ih =>
    rw [List.map_cons] at hnd
    obtain ⟨hp1, hnd2⟩ := List.nodup_cons.mp hnd
    rcases List.mem_cons.mp hmem with heq | htail
    · rw [← heq]
      simp [alookup]
    · have hk : ¬ p.1 = k := by
        intro h
        apply hp1
        rw [h]
        exact List.mem_map.mpr ⟨(k, v), htail, rfl⟩
      simp only [alookup, if_neg hk]
      exact ih htail hnd2

/-- Folding dict writes over a sequence of items: the value finally stored
under key `a` is the fold of the write function over exactly the items whose
key is `a`, in order. -/
theorem alookup_foldl_upsert {β γ : Type} (key : β → String)
    (g : Option γ → β → γ) (xs : List β) (m : List (String × γ)) (a : String) :
    alookup a (xs.foldl (fun m x => upsert m (key x) (fun o => g o x)) m) =
      (xs.filter (fun x => key x == a)).foldl (fun o x => some (g o x))
        (alookup a m) := by
  induction xs generalizing m with
  | nil => simp
  | cons x xs ih =>
    simp only [List.foldl_cons]
    rw [ih]
    by_cases hk : key x = a
    · rw [alookup_upsert, if_pos hk]
      simp [List.filter_cons, hk]
    · rw [alookup_upsert, if_neg hk]
      simp [List.filter_cons, hk]

theorem nodupKeys_foldl_upsert {β γ : Type} (key : β → String)
    (g : Option γ → β → γ) (xs : List β) (m : List (String × γ))
    (h : (m.map Prod.fst).Nodup) :
    (((xs.foldl (fun m x => upsert m (key x) (fun o => g o x)) m)).map
      Prod.fst).Nodup := by
  induction xs generalizing m with
  | nil => simpa
  | cons x xs ih =>
    simp only [List.foldl_cons]
    exact ih _ (nodupKeys_upsert _ _ h)

theorem foldl_optionStep_some {β γ : Type} (h : γ → β → γ) (dflt : γ)
    (xs : List β) (v : γ) :
    xs.foldl (fun (o : Option γ) x => some (h (o.getD dflt) x)) (some v) =
      some (xs.foldl h v) := by
  induction xs generalizing v with
  | nil => rfl
  | cons x xs ih => simpa using ih (h v x)

/-! ### Evaluator (src/benchmark_service/evaluators/benchmark_evaluator.py)

An `agent_response` dict is modelled by `AgentResponse`: the `"error"` key
by an `Option String`, the `"correct"` key (read with `.get("correct",
False)`) by a `Bool`, and the `"response"` key by an `Option RespData`
(`none` also covers a non-dict `"response"` value, which the source
ignores).  `RespData` records the optional `"latency"` and
`"usage"["total_tokens"]` entries. -/

structure RespData where
  latency : Option ℚ
  total_tokens : Option ℤ
deriving DecidableEq

structure AgentResponse where
  agent : String
  error : Option String
  correct : Bool
  response : Option RespData
deriving DecidableEq

structure QuestionResult where
  agent_responses : List AgentResponse
deriving DecidableEq

structure RawStats where
  total_questions : ℕ
  correct_answers : ℕ
  total_latency : ℚ
  total_tokens : ℤ
  errors : ℕ
deriving DecidableEq

/-- The defaultdict initialiser of `BenchmarkEvaluator.evaluate_results`. -/
def RawStats.init : RawStats :=
  { total_questions := 0, correct_answers := 0, total_latency := 0
    total_tokens := 0, errors := 0 }

/-- One iteration of the response-processing loop of `evaluate_results`. -/
def updateStats (s : RawStats) (r : AgentResponse) : RawStats :=
  let s1 := { s with total_questions := s.total_questions + 1 }
  match r.error with
  | some _ => { s1 with errors := s1.errors + 1 }
  | none =>
    let s2 :=
      if r.correct then { s1 with correct_answers := s1.correct_answers + 1 }
      else s1
    match r.response with
    | none => s2
    | some rd =>
      let s3 :=
        match rd.latency with
        | some l => { s2 with total_latency := s2.total_latency + l }
        | none => s2
      match rd.total_tokens with
      | some t => { s3 with total_tokens := s3.total_tokens + t }
      | none => s3

/-- The accumulation phase of `evaluate_results`: a defaultdict keyed by
agent name, filled by the nested loop over results and responses. -/
def accumStats (results : List QuestionResult) : List (String × RawStats) :=
  results.foldl
    (fun m res =>
      res.agent_responses.foldl
        (fun m r => upsert m r.agent (fun o => updateStats (o.getD RawStats.init) r))
        m)
    []

/-- The five final metrics of `evaluate_results`, each `round(_, 2)`ed. -/
structure AggMetrics where
  accuracy : ℚ
  latency_avg : ℚ
  tokens_avg : ℚ
  error_rate : ℚ
  consistency : ℚ
deriving DecidableEq

/-- The metric-derivation phase of `evaluate_results` for one agent. -/
def metricsOf (s : RawStats) : AggMetrics :=
  let accuracy : ℚ :=
    if 0 < s.total_questions then
      (s.correct_answers : ℚ) / (s.total_questions : ℚ) * 100
    else 0
  let avg_latency : ℚ :=
    if 0 < s.total_questions then s.total_latency / (s.total_questions : ℚ)
    else 0
  let avg_tokens : ℚ :=
    if 0 < s.total_questions then
      (s.total_tokens : ℚ) / (s.total_questions : ℚ)
    else 0
  let error_rate : ℚ :=
    if 0 < s.total_questions then
      (s.errors : ℚ) / (s.total_questions : ℚ) * 100
    else 0
  { accuracy := round2 accuracy
    latency_avg := round2 avg_latency
    tokens_avg := round2 avg_tokens
    error_rate := round2 error_rate
    consistency := round2 (100 - error_rate) }

structure AgentEval where
  metrics : AggMetrics
  raw_stats : RawStats
deriving DecidableEq

/-- `BenchmarkEvaluator.evaluate_results`, returning the per-agent map in
dict insertion order. -/
def evaluate_results (results : List QuestionResult) :
    List (String × AgentEval) :=
  if results.isEmpty then []
  else
    (accumStats results).map
      (fun p => (p.1, { metrics := metricsOf p.2, raw_stats := p.2 }))

/-! #### Specification-side recomputation of the accumulated statistics -/

/-- All agent responses of a run, in processing order. -/
def responsesOf (results : List QuestionResult) : List AgentResponse :=
  results.flatMap QuestionResult.agent_responses

/-- The responses attributed to agent `a`, in processing order. -/
def respFor (results : List QuestionResult) (a : String) : List AgentResponse :=
  (responsesOf results).filter (fun r => r.agent == a)

/-- Latency contributed by one response: errors and missing fields
contribute nothing. -/
def contribLat (r : AgentResponse) : ℚ :=
  if r.error.isNone then ((r.response.bind RespData.latency).getD 0) else 0

/-- Tokens contributed by one response: errors and missing fields
contribute nothing. -/
def contribTok (r : AgentResponse) : ℤ :=
  if r.error.isNone then ((r.response.bind RespData.total_tokens).getD 0) else 0

/-- Closed-form accumulated statistics over a list of responses. -/
def statsOfList (rs : List AgentResponse) : RawStats :=
  { total_questions := rs.length
    correct_answers := (rs.filter (fun r => r.error.isNone && r.correct)).length
    total_latency := (rs.map contribLat).sum
    total_tokens := (rs.map contribTok).sum
    errors := (rs.filter (fun r => r.error.isSome)).length }

theorem updateStats_eq (s : RawStats) (r : AgentResponse) :
    updateStats s r =
      { total_questions := s.total_questions + 1
        correct_answers :=
          s.correct_answers + (if r.error.isNone && r.correct then 1 else 0)
        total_latency := s.total_latency + contribLat r
        total_tokens := s.total_tokens + contribTok r
        errors := s.errors + (if r.error.isSome then 1 else 0) } := by
  unfold updateStats contribLat contribTok
  rcases r with ⟨ag, err, corr, resp⟩
  cases err with
  | some e => simp
  | none =>
    cases resp with
    | none => cases corr <;> simp
    | some rd =>
      rcases rd with ⟨lat, tok⟩
      cases lat <;> cases tok <;> cases corr <;> simp

theorem foldl_updateStats (rs : List AgentResponse) (s : RawStats) :
    rs.foldl updateStats s =
      { total_questions := s.total_questions + (statsOfList rs).total_questions
        correct_answers := s.correct_answers + (statsOfList rs).correct_answers
        total_latency := s.total_latency + (statsOfList rs).total_latency
        total_tokens := s.total_tokens + (statsOfList rs).total_tokens
        errors := s.errors + (statsOfList rs).errors } := by
  induction rs generalizing s with
  | nil => simp [statsOfList]
  | cons r rs ih =>
    rw [List.foldl_cons, ih, updateStats_eq]
    simp only [statsOfList, List.length_cons, List.filter_cons, List.map_cons,
      List.sum_cons]
    cases hc : r.error.isNone && r.correct <;>
      cases he : r.error.isSome <;>
      simp [hc, he] <;>
      repeat' apply And.intro
    all_goals first | trivial | ring | omega

theorem foldl_updateStats_init (rs : List AgentResponse) :
    rs.foldl updateStats RawStats.init = statsOfList rs := by
  rw [foldl_updateStats]
  simp [RawStats.init]

theorem foldl_bind {α β : Type} (l : List α) (f : α → List β)
    {γ : Type} (g : γ → β → γ) (init : γ) :
    (l.flatMap f).foldl g init = l.foldl (fun acc x => (f x).foldl g acc) init := by
  induction l generalizing init with
  | nil => simp
  | cons x l ih => simp [List.foldl_append, ih]

/-- The central characterisation of the accumulation phase: the entry
stored for agent `a` is exactly the closed-form statistics of the
responses attributed to `a`, present iff at least one such response
exists. -/
theorem alookup_accumStats (results : List QuestionResult) (a : String) :
    alookup a (accumStats results) =
      if (respFor results a).isEmpty then none
      else some (statsOfList (respFor results a)) := by
  unfold accumStats respFor responsesOf
  rw [show
    (results.foldl
      (fun m res =>
        res.agent_responses.foldl
          (fun m r => upsert m r.agent (fun o => updateStats (o.getD RawStats.init) r)) m)
      ([] : List (String × RawStats)))
    = ((results.flatMap QuestionResult.agent_responses).foldl
        (fun m r => upsert m r.agent (fun o => updateStats (o.getD RawStats.init) r))
        ([] : List (String × RawStats)))
    from (foldl_bind results QuestionResult.agent_responses _ _).symm]
  rw [alookup_foldl_upsert AgentResponse.agent
    (fun o r => updateStats (o.getD RawStats.init) r)]
  simp only [alookup]
  cases hf : (results.flatMap QuestionResult.agent_responses).filter
      (fun r => r.agent == a) with
  | nil => simp
  | cons r rs =>
    simp only [List.foldl_cons, Option.getD_none, List.isEmpty_cons]
    rw [foldl_optionStep_some updateStats RawStats.init rs (updateStats RawStats.init r)]
    rw [show rs.foldl updateStats (updateStats RawStats.init r)
        = (r :: rs).foldl updateStats RawStats.init from rfl]
    rw [foldl_updateStats_init]
    simp

theorem accumStats_eq_flat (results : List QuestionResult) :
    accumStats results =
      (responsesOf results).foldl
        (fun m r => upsert m r.agent (fun o => updateStats (o.getD RawStats.init) r))
        [] :=
  (foldl_bind results QuestionResult.agent_responses _ _).symm

theorem keys_accumStats_nodup (results : List QuestionResult) :
    ((accumStats results).map Prod.fst).Nodup := by
  rw [accumStats_eq_flat]
  exact nodupKeys_foldl_upsert AgentResponse.agent
    (fun o r => updateStats (o.getD RawStats.init) r) _ [] (by simp)

theorem keys_evaluate_results (results : List QuestionResult) :
    (evaluate_results results).map Prod.fst = (accumStats results).map Prod.fst := by
  unfold evaluate_results
  by_cases h : results.isEmpty
  · rw [if_pos h]
    cases results with
    | nil => simp [accumStats]
    | cons x xs => simp [List.isEmpty_cons] at h
  · rw [if_neg h, List.map_map]
    rfl

theorem keys_evaluate_results_nodup (results : List QuestionResult) :
    ((evaluate_results results).map Prod.fst).Nodup := by
  rw [keys_evaluate_results]
  exact keys_accumStats_nodup results

/-- Characterisation of each entry produced by `evaluate_results`: its raw
statistics are the closed-form statistics of the responses attributed to
the agent, the metrics are derived from them, and at least one such
response exists. -/
theorem mem_evaluate_results {results : List QuestionResult} {a : String}
    {ev : AgentEval} (h : (a, ev) ∈ evaluate_results results) :
    ev.raw_stats = statsOfList (respFor results a)
      ∧ ev.metrics = metricsOf ev.raw_stats
      ∧ (respFor results a).isEmpty = false := by
  unfold evaluate_results at h
  by_cases hemp : results.isEmpty
  · rw [if_pos hemp] at h
    simp at h
  · rw [if_neg hemp] at h
    obtain ⟨p, hp, heq⟩ := List.mem_map.mp h
    have ha : p.1 = a := congrArg Prod.fst heq
    have hev : ev = { metrics := metricsOf p.2, raw_stats := p.2 } :=
      (congrArg Prod.snd heq).symm
    have hmem : (a, p.2) ∈ accumStats results := by
      rw [← ha]
      exact hp
    have hlook := alookup_of_mem_of_nodup hmem (keys_accumStats_nodup results)
    rw [alookup_accumStats] at hlook
    by_cases hre : (respFor results a).isEmpty
    · rw [if_pos hre] at hlook
      simp at hlook
    · rw [if_neg hre] at hlook
      have hstats : p.2 = statsOfList (respFor results a) := by
        injection hlook.symm
      constructor
      · rw [hev]
        exact hstats
      constructor
      · rw [hev]
      · simpa using hre

/-! ### Analytics (src/benchmark_service/analytics/benchmark_analytics.py)

An agent entry of `benchmark_results["agents"]` is a dict
`{"id": …, "metrics": {...}, "category_scores": {...}}`; metrics and
category scores are modelled as insertion-ordered association lists so
that accesses `metrics.get(key, 0)` and iteration order are faithful. -/

structure AAgent where
  id : String
  metrics : List (String × ℚ)
  category_scores : List (String × ℚ)
deriving DecidableEq

/-- `agent["metrics"].get(k, 0)`. -/
def mget (a : AAgent) (k : String) : ℚ := (alookup k a.metrics).getD 0

/-- `BenchmarkAnalytics._rate_accuracy`. -/
def rate_accuracy (accuracy : ℚ) : String :=
  if accuracy ≥ 90 then "Excellent"
  else if accuracy ≥ 80 then "Good"
  else if accuracy ≥ 70 then "Fair"
  else "Poor"

/-- `BenchmarkAnalytics._rate_latency`. -/
def rate_latency (latency : ℚ) : String :=
  if latency ≤ 1 then "Excellent"
  else if latency ≤ 3 then "Good"
  else if latency ≤ 5 then "Fair"
  else "Poor"

/-- `BenchmarkAnalytics._calculate_tokens_per_second`. -/
def tokens_per_second (tokens latency : ℚ) : ℚ :=
  if latency ≤ 0 then 0
  else if tokens > 0 then tokens / latency else 0

/-- `BenchmarkAnalytics._calculate_cost_efficiency`. -/
def cost_efficiency (accuracy tokens : ℚ) : ℚ :=
  if tokens ≤ 0 then 0
  else (accuracy / 100) / (tokens / 1000)

structure PerfAnalysis where
  accuracy_value : ℚ
  accuracy_rating : String
  latency_value : ℚ
  latency_rating : String
  tps : ℚ
  cost_eff : ℚ
deriving DecidableEq

def perfOf (a : AAgent) : PerfAnalysis :=
  { accuracy_value := mget a "accuracy"
    accuracy_rating := rate_accuracy (mget a "accuracy")
    latency_value := mget a "latency_avg"
    latency_rating := rate_latency (mget a "latency_avg")
    tps := tokens_per_second (mget a "tokens_avg") (mget a "latency_avg")
    cost_eff := cost_efficiency (mget a "accuracy") (mget a "tokens_avg") }

/-- `BenchmarkAnalytics._analyze_performance_metrics`: a dict keyed by
agent id. -/
def analyze_performance_metrics (agents : List AAgent) :
    List (String × PerfAnalysis) :=
  agents.foldl (fun m a => upsert m a.id (fun _ => perfOf a)) []

/-- CPython `{agent["id"]: agent["metrics"].get(k, 0) for agent in agents}`. -/
def pyDictOf (agents : List AAgent) (k : String) : List (String × ℚ) :=
  agents.foldl (fun m a => upsert m a.id (fun _ => mget a k)) []

/-- CPython `max(d, key=d.get)` keeps the first key attaining the maximum
value; here returned together with its value. -/
def maxPairByVal (m : List (String × ℚ)) : Option (String × ℚ) :=
  m.foldl
    (fun acc p =>
      match acc with
      | none => some p
      | some q => if q.2 < p.2 then some p else some q)
    none

/-- CPython `min(d, key=d.get)` keeps the first key attaining the minimum
value; here returned together with its value. -/
def minPairByVal (m : List (String × ℚ)) : Option (String × ℚ) :=
  m.foldl
    (fun acc p =>
      match acc with
      | none => some p
      | some q => if p.2 < q.2 then some p else some q)
    none

/-- The composite score of `_rank_agents_by_performance` (`0.5`, the
factor `2` and `0.3` are exact in binary floating point resp. modelled as
the exact rationals they denote). -/
def composite_score (a : AAgent) : ℚ :=
  mget a "accuracy" * 0.5 + max 0 ((10 - mget a "latency_avg") * 2)
    + mget a "consistency" * 0.3

structure RankEntry where
  agent_id : String
  score : ℚ
  accuracy : ℚ
  latency : ℚ
  consistency : ℚ
deriving DecidableEq

def rankEntryOf (a : AAgent) : RankEntry :=
  { agent_id := a.id
    score := composite_score a
    accuracy := mget a "accuracy"
    latency := mget a "latency_avg"
    consistency := mget a "consistency" }

/-- Input positions, used to express the stability of CPython's sort. -/
def withIdxFrom {α : Type} (n : ℕ) : List α → List (ℕ × α)
  | [] => []
  | x :: xs => (n, x) :: withIdxFrom (n + 1) xs

def withIdx {α : Type} (l : List α) : List (ℕ × α) := withIdxFrom 0 l

theorem withIdxFrom_map_snd {α : Type} (n : ℕ) (l : List α) :
    (withIdxFrom n l).map Prod.snd = l := by
  induction l generalizing n with
  | nil => rfl
  | cons x xs ih => simp [withIdxFrom, ih]

/-- Sort order of the ranking: higher composite score first, equal scores
tie-broken by input position (the behaviour of CPython's stable
`list.sort(key=…, reverse=True)`). -/
def rankRel (p q : ℕ × AAgent) : Prop :=
  composite_score q.2 < composite_score p.2
    ∨ (composite_score p.2 = composite_score q.2 ∧ p.1 ≤ q.1)

instance : DecidableRel rankRel := fun p q => by
  unfold rankRel
  infer_instance

instance : IsTotal (ℕ × AAgent) rankRel := by
  constructor
  intro p q
  rcases lt_trichotomy (composite_score p.2) (composite_score q.2) with h | h | h
  · exact Or.inr (Or.inl h)
  · rcases le_total p.1 q.1 with h2 | h2
    · exact Or.inl (Or.inr ⟨h, h2⟩)
    · exact Or.inr (Or.inr ⟨h.symm, h2⟩)
  · exact Or.inl (Or.inl h)

instance : IsTrans (ℕ × AAgent) rankRel := by
  constructor
  intro p q r hpq hqr
  rcases hpq with h1 | ⟨h1, h1i⟩ <;> rcases hqr with h2 | ⟨h2, h2i⟩
  · exact Or.inl (lt_trans h2 h1)
  · exact Or.inl (h2 ▸ h1)
  · exact Or.inl (by rw [h1]; exact h2)
  · exact Or.inr ⟨by rw [h1, h2], le_trans h1i h2i⟩

/-- `BenchmarkAnalytics._rank_agents_by_performance`: build one entry per
agent, then stable-sort descending by composite score. -/
def rank_agents (agents : List AAgent) : List RankEntry :=
  ((withIdx agents).insertionSort rankRel).map (fun p => rankEntryOf p.2)

inductive ComparisonResult where
  | notAvailable (msg : String)
  | available (best_accuracy best_latency most_efficient : Option String)
      (performance_ranking : List RankEntry)
deriving DecidableEq

/-- `BenchmarkAnalytics._compare_agents`. -/
def compare_agents (agents : List AAgent) : ComparisonResult :=
  if agents.length < 2 then
    .notAvailable "Need at least 2 agents for comparison"
  else
    .available
      ((maxPairByVal (pyDictOf agents "accuracy")).map Prod.fst)
      ((minPairByVal (pyDictOf agents "latency_avg")).map Prod.fst)
      ((minPairByVal (pyDictOf agents "tokens_avg")).map Prod.fst)
      (rank_agents agents)

/-! #### Statistical summary -/

/-- `numpy.mean` over ℚ. -/
def meanQ (l : List ℚ) : ℚ := l.sum / (l.length : ℚ)

/-- Square of `numpy.std` (population variance) over ℚ. -/
def varQ (l : List ℚ) : ℚ :=
  ((l.map (fun x => (x - meanQ l) ^ 2)).sum) / (l.length : ℚ)

/-- `numpy.median` over ℚ: middle element of the sorted values, or the
average of the two middle elements. -/
def medianQ (l : List ℚ) : ℚ :=
  let s := l.insertionSort (· ≤ ·)
  if l.length % 2 = 1 then s.getD (l.length / 2) 0
  else (s.getD (l.length / 2 - 1) 0 + s.getD (l.length / 2) 0) / 2

/-- `numpy.min` over ℚ. -/
def minQ : List ℚ → ℚ
  | [] => 0
  | x :: xs => xs.foldl min x

/-- `numpy.max` over ℚ. -/
def maxQ : List ℚ → ℚ
  | [] => 0
  | x :: xs => xs.foldl max x

/-- The per-metric record of `_generate_statistical_summary`.  `numpy.std`
is the square root of the population variance; the variance is stored
(field `std_dev_sq`) so the record stays rational. -/
structure SummaryStats where
  mean : ℚ
  median : ℚ
  std_dev_sq : ℚ
  smin : ℚ
  smax : ℚ
deriving DecidableEq

def summaryOf (l : List ℚ) : SummaryStats :=
  { mean := meanQ l
    median := medianQ l
    std_dev_sq := varQ l
    smin := minQ l
    smax := maxQ l }

/-- `BenchmarkAnalytics._generate_statistical_summary`: collect every
metric key across agents into a defaultdict of value lists (insertion
order), then summarise each nonempty list. -/
def generate_statistical_summary (agents : List AAgent) :
    List (String × SummaryStats) :=
  if agents.isEmpty then []
  else
    let coll : List (String × List ℚ) :=
      (agents.flatMap AAgent.metrics).foldl
        (fun m p => upsert m p.1 (fun o => (o.getD []) ++ [p.2])) []
    (coll.filter (fun p => !p.2.isEmpty)).map (fun p => (p.1, summaryOf p.2))

/-! #### Insights -/

/-- `BenchmarkAnalytics._generate_insights`, one agent: accuracy rules,
then latency rules, then efficiency rules (each an if/elif chain). -/
def insightsFor (a : AAgent) : List String :=
  let accuracy := mget a "accuracy"
  let latency := mget a "latency_avg"
  let tokens := mget a "tokens_avg"
  let accIns : List String :=
    if accuracy ≥ 90 then [a.id ++ " demonstra excelente precisão (≥90%)"]
    else if accuracy ≥ 80 then [a.id ++ " mostra boa precisão (80-89%)"]
    else if accuracy < 70 then [a.id ++ " precisa de melhorias na precisão (<70%)"]
    else []
  let latIns : List String :=
    if latency ≤ 2 then [a.id ++ " tem excelente tempo de resposta (≤2s)"]
    else if latency > 5 then [a.id ++ " apresenta latência alta (>5s)"]
    else []
  let tps := tokens_per_second tokens latency
  let effIns : List String :=
    if tps > 500 then [a.id ++ " é muito eficiente em processamento de tokens"]
    else if tps < 100 then
      [a.id ++ " poderia ser mais eficiente no processamento de tokens"]
    else []
  accIns ++ latIns ++ effIns

/-- `BenchmarkAnalytics._generate_insights` over all agents. -/
def generate_insights (agents : List AAgent) : List String :=
  agents.flatMap insightsFor

/-! #### The analyze entry point -/

/-- The `benchmark_results` argument: `benchmark` and `agents` keys are
modelled as optional (an empty dict is `⟨none, none⟩`; the guard
`not benchmark_results or "agents" not in benchmark_results` holds iff
`agents = none`). -/
structure BenchInput where
  benchmark : Option String
  agents : Option (List AAgent)
deriving DecidableEq

structure AnalysisReport where
  timestamp : String
  benchmark_id : String
  total_agents : ℕ
  performance_metrics : List (String × PerfAnalysis)
  comparative_analysis : ComparisonResult
  statistical_summary : List (String × SummaryStats)
  insights : List String
deriving DecidableEq

def buildAnalysis (input : BenchInput) (ags : List AAgent) (now : String) :
    AnalysisReport :=
  { timestamp := now
    benchmark_id := input.benchmark.getD "unknown"
    total_agents := ags.length
    performance_metrics := analyze_performance_metrics ags
    comparative_analysis := compare_agents ags
    statistical_summary := generate_statistical_summary ags
    insights := generate_insights ags }

/-- `BenchmarkAnalytics.analyze_benchmark_results`.  `datetime.now()` is an
explicit argument `now`; the instance state `self.metrics_history` is
passed and returned explicitly.  The `{}` early return is `none`. -/
def analyze_benchmark_results (hist : List AnalysisReport)
    (input : BenchInput) (now : String) :
    List AnalysisReport × Option AnalysisReport :=
  match input.agents with
  | none => (hist, none)
  | some ags =>
    let a := buildAnalysis input ags now
    (hist ++ [a], some a)

/-! ### Deduction engine (src/benchmark_service/analytics/data_deduction.py)

The k-means clustering and the Pearson correlations are iterative
floating-point computations with no algorithmic claims attached; their
results are abstracted to a marker constructor, while the insufficient-data
guards, which are claimed behaviour, are modelled exactly. -/

inductive PatternResult where
  | insufficient (msg : String)
  | clustered
deriving DecidableEq

inductive CorrResult where
  | insufficient (msg : String)
  | computed
deriving DecidableEq

structure BehaviorProfile where
  score_consistency : String
  category_strengths : List String
  category_weaknesses : List String
  overall_performance_profile : String
deriving DecidableEq

/-- `DataDeductionEngine._profile_performance`. -/
def profile_performance (a : AAgent) : String :=
  if mget a "accuracy" ≥ 85 ∧ mget a "latency_avg" ≤ 3 ∧ mget a "consistency" ≥ 4
  then "High Performance"
  else if mget a "accuracy" ≥ 75 ∧ mget a "latency_avg" ≤ 5 ∧ mget a "consistency" ≥ 3
  then "Balanced Performance"
  else "Needs Improvement"

/-- `DataDeductionEngine._analyze_behavioral_patterns` for one agent with a
nonempty category-score dict.  `numpy.std(v) < c` for `c > 0` is the exact
squared comparison `varQ v < c²`. -/
def behaviorOf (a : AAgent) : BehaviorProfile :=
  let vals := a.category_scores.map Prod.snd
  { score_consistency :=
      if varQ vals < 25 then "High"
      else if varQ vals < 100 then "Medium"
      else "Low"
    category_strengths :=
      (a.category_scores.filter (fun p => p.2 > meanQ vals + 5)).map Prod.fst
    category_weaknesses :=
      (a.category_scores.filter (fun p => p.2 < meanQ vals - 5)).map Prod.fst
    overall_performance_profile := profile_performance a }

def analyze_behavioral_patterns (agents : List AAgent) :
    List (String × BehaviorProfile) :=
  agents.foldl
    (fun m a =>
      if a.category_scores.isEmpty then m
      else upsert m a.id (fun _ => behaviorOf a))
    []

/-! #### Anomaly detection -/

/-- Exact test for `v < mean - 2·std` where `std = sqrt varr`:
equivalently `v < mean` and `(mean - v)² > 4·varr`
(`ltMeanSub2Std_iff_real` below). -/
def ltMeanSub2Std (v m varr : ℚ) : Bool :=
  decide (v < m ∧ 4 * varr < (m - v) ^ 2)

/-- Exact test for `v > mean + 2·std` where `std = sqrt varr`. -/
def gtMeanAdd2Std (v m varr : ℚ) : Bool :=
  decide (m < v ∧ 4 * varr < (v - m) ^ 2)

theorem ltMeanSub2Std_iff_real (v m varr : ℚ) (h : 0 ≤ varr) :
    ltMeanSub2Std v m varr = true ↔
      (v : ℝ) < (m : ℝ) - 2 * Real.sqrt (varr : ℝ) := by
  unfold ltMeanSub2Std
  rw [decide_eq_true_iff]
  have hs : Real.sqrt (varr : ℝ) ^ 2 = (varr : ℝ) :=
    Real.sq_sqrt (by exact_mod_cast h)
  have hs0 : 0 ≤ Real.sqrt (varr : ℝ) := Real.sqrt_nonneg _
  constructor
  · rintro ⟨h1, h2⟩
    have h1r : (v : ℝ) < (m : ℝ) := by exact_mod_cast h1
    have h2r : 4 * (varr : ℝ) < ((m : ℝ) - v) ^ 2 := by exact_mod_cast h2
    nlinarith [sq_nonneg ((m : ℝ) - v - 2 * Real.sqrt (varr : ℝ)),
      sq_nonneg ((m : ℝ) - v + 2 * Real.sqrt (varr : ℝ))]
  · intro hr
    have h1r : (v : ℝ) < (m : ℝ) := by nlinarith
    constructor
    · exact_mod_cast h1r
    · have h2r : 4 * (varr : ℝ) < ((m : ℝ) - v) ^ 2 := by nlinarith
      exact_mod_cast h2r

theorem gtMeanAdd2Std_iff_real (v m varr : ℚ) (h : 0 ≤ varr) :
    gtMeanAdd2Std v m varr = true ↔
      (m : ℝ) + 2 * Real.sqrt (varr : ℝ) < (v : ℝ) := by
  unfold gtMeanAdd2Std
  rw [decide_eq_true_iff]
  have hs : Real.sqrt (varr : ℝ) ^ 2 = (varr : ℝ) :=
    Real.sq_sqrt (by exact_mod_cast h)
  have hs0 : 0 ≤ Real.sqrt (varr : ℝ) := Real.sqrt_nonneg _
  constructor
  · rintro ⟨h1, h2⟩
    have h1r : (m : ℝ) < (v : ℝ) := by exact_mod_cast h1
    have h2r : 4 * (varr : ℝ) < ((v : ℝ) - m) ^ 2 := by exact_mod_cast h2
    nlinarith [sq_nonneg ((v : ℝ) - m - 2 * Real.sqrt (varr : ℝ)),
      sq_nonneg ((v : ℝ) - m + 2 * Real.sqrt (varr : ℝ))]
  · intro hr
    have h1r : (m : ℝ) < (v : ℝ) := by nlinarith
    constructor
    · exact_mod_cast h1r
    · have h2r : 4 * (varr : ℝ) < ((v : ℝ) - m) ^ 2 := by nlinarith
      exact_mod_cast h2r

/-- An anomaly record.  The source stores `std_dev = sqrt std_dev_sq`. -/
structure Anomaly where
  agent_id : String
  metric : String
  value : ℚ
  mean : ℚ
  std_dev_sq : ℚ
  anomaly_type : String
deriving DecidableEq

/-- The nested ternary of `_detect_anomalies` mapping the collection name
to the metrics key. -/
def metricKeyOf (metric_name : String) : String :=
  if metric_name = "accuracy" then "accuracy"
  else if metric_name = "latency" then "latency_avg"
  else if metric_name = "tokens" then "tokens_avg"
  else "consistency"

/-- The body of `_detect_anomalies` for one collected metric. -/
def anomaliesFor (agents : List AAgent) (metric_name : String) : List Anomaly :=
  let values := agents.map (fun a => mget a (metricKeyOf metric_name))
  if 3 ≤ values.length then
    let m := meanQ values
    let varr := varQ values
    agents.filterMap (fun a =>
      let v := mget a (metricKeyOf metric_name)
      if ltMeanSub2Std v m varr then
        some { agent_id := a.id, metric := metric_name, value := v, mean := m
               std_dev_sq := varr, anomaly_type := "low_outlier" }
      else if gtMeanAdd2Std v m varr then
        some { agent_id := a.id, metric := metric_name, value := v, mean := m
               std_dev_sq := varr, anomaly_type := "high_outlier" }
      else none)
  else []

/-- `DataDeductionEngine._detect_anomalies` over the four fixed metric
collections, in dict insertion order. -/
def detect_anomalies (agents : List AAgent) : List Anomaly :=
  ["accuracy", "latency", "tokens", "consistency"].flatMap (anomaliesFor agents)

/-! #### Recommendations -/

def recsFor (a : AAgent) : List String :=
  (if mget a "accuracy" < 75 then
    ["Considerar fine-tuning para " ++ a.id ++ " para melhorar precisão"]
  else [])
  ++ (if mget a "latency_avg" > 5 then
    ["Otimizar tempo de resposta para " ++ a.id]
  else [])
  ++ (if mget a "tokens_avg" > 2000 then
    ["Avaliar eficiência de token usage para " ++ a.id]
  else [])
  ++ (if mget a "consistency" < 4 then
    ["Melhorar consistência de respostas para " ++ a.id]
  else [])

/-- `DataDeductionEngine._generate_recommendations`.  The final
`list(set(...))` has hash-dependent order in CPython; `eraseDups`
(first-occurrence order) is the deterministic stand-in for it, faithful
as a finite set of strings. -/
def generate_recommendations (agents : List AAgent) : List String :=
  let base := agents.flatMap recsFor
  let comp : List String :=
    if 1 < agents.length then
      match maxPairByVal (pyDictOf agents "accuracy"),
            minPairByVal (pyDictOf agents "accuracy") with
      | some b, some w =>
        if b.2 - w.2 > 10 then
          ["Comparar configurações de " ++ b.1 ++ " com " ++ w.1
            ++ " para identificar fatores de sucesso"]
        else []
      | _, _ => []
    else []
  let general : List String :=
    ["Considerar execução de benchmarks adicionais para validação estatística",
     "Documentar configurações ótimas identificadas",
     "Monitorar tendências de performance ao longo do tempo"]
  (base ++ comp ++ general).eraseDups

structure Deductions where
  performance_patterns : PatternResult
  behavioral_insights : List (String × BehaviorProfile)
  correlation_analysis : CorrResult
  anomaly_detection : List Anomaly
  recommendations : List String
deriving DecidableEq

/-- `DataDeductionEngine.deduct_patterns`; the `{}` early return is `none`. -/
def deduct_patterns (input : BenchInput) : Option Deductions :=
  match input.agents with
  | none => none
  | some ags =>
    some
      { performance_patterns :=
          if ags.length < 2 then
            .insufficient "Need at least 2 agents for pattern analysis"
          else .clustered
        behavioral_insights := analyze_behavioral_patterns ags
        correlation_analysis :=
          if ags.length < 3 then
            .insufficient "Need at least 3 agents for correlation analysis"
          else .computed
        anomaly_detection := detect_anomalies ags
        recommendations := generate_recommendations ags }

/-! ### Worker correctness decision
(src/benchmark_service/workers/benchmark_worker.py)

`process_benchmark` sets
`"correct": response.get("response", "").strip() == question["answer"]
           if "response" in response else False`
and, on an exception from `agent.query`, appends
`{"agent": …, "error": str(e), "correct": False}`. -/

/-- Python `str.strip()`: drop leading and trailing whitespace. -/
def pyStrip (s : String) : String :=
  ⟨(((s.data.dropWhile Char.isWhitespace).reverse.dropWhile
      Char.isWhitespace).reverse)⟩

/-- The worker's correctness decision: `resp_text` is the value of the
`"response"` key of the agent's reply if present. -/
def decide_correct (resp_text : Option String) (expected : String) : Bool :=
  match resp_text with
  | some t => pyStrip t == expected
  | none => false

/-- The response record appended when `agent.query` raises. -/
def response_on_failure (agent err : String) : AgentResponse :=
  { agent := agent, error := some err, correct := false, response := none }

/-! ## Claim theorems -/

theorem round2_zero : round2 0 = 0 := by
  have := round2_intCast 0
  norm_num at this
  exact this

theorem round2_eq_int (n : ℤ) (q : ℚ) (h : q = (n : ℚ)) : round2 q = q := by
  rw [h, round2_intCast]

/-- Input for the C1 counterexample: one agent answering 1 of 3 questions
correctly (no errors, no latency/token data). -/
def exC1 : List QuestionResult :=
  [⟨[{ agent := "a", error := none, correct := true, response := none },
     { agent := "a", error := none, correct := false, response := none },
     { agent := "a", error := none, correct := false, response := none }]⟩]

/-- C1, counterexample: the claim states `accuracy_pct =
correct_answers / total_questions * 100` exactly, but the source rounds
every derived metric to two decimal places (`round(accuracy, 2)`), so an
agent answering 1 of 3 correctly is reported `33.33`, not `100/3`. -/
theorem C1_counterexample :
    (evaluate_results exC1).map (fun p => (p.1, p.2.metrics.accuracy)) =
      [("a", 3333/100)]
    ∧ (3333/100 : ℚ) ≠ 1/3 * 100 := by
  constructor
  · have h1 : accumStats exC1 =
        [("a", { total_questions := 3, correct_answers := 1, total_latency := 0,
                 total_tokens := 0, errors := 0 })] := by
      norm_num [exC1, accumStats, upsert, alookup, updateStats, RawStats.init]
    have h0 : evaluate_results exC1 =
        (accumStats exC1).map
          (fun p => (p.1, { metrics := metricsOf p.2, raw_stats := p.2 })) := by
      unfold evaluate_results
      rw [if_neg (by simp [exC1])]
    rw [h0, h1]
    simp only [List.map_cons, List.map_nil]
    norm_num [metricsOf]
    rw [@round2_eq_down (100/3) 3333 (by norm_num [Int.floor_eq_iff]) (by norm_num)]
    norm_num
  · norm_num

/-- C1 (amended): per agent, `evaluate_results` accumulates
`total_questions`, `correct_answers`, `total_latency`, `total_tokens` and
`errors` across all responses attributed to that agent — an error response
increments `errors` and `total_questions` only — and each derived metric
is the claimed ratio *rounded to two decimal places*; with
`total_questions = 0` the unrounded ratios all fall back to `0`.  (The
7-of-10 instance giving exactly `70.0` is the witness below.) -/
theorem C1_evaluator_accumulation (results : List QuestionResult) (a : String)
    (ev : AgentEval) (h : (a, ev) ∈ evaluate_results results) :
    ev.raw_stats = statsOfList (respFor results a)
    ∧ 0 < ev.raw_stats.total_questions
    ∧ ev.metrics.accuracy =
        round2 ((ev.raw_stats.correct_answers : ℚ)
          / (ev.raw_stats.total_questions : ℚ) * 100)
    ∧ ev.metrics.latency_avg =
        round2 (ev.raw_stats.total_latency / (ev.raw_stats.total_questions : ℚ))
    ∧ ev.metrics.tokens_avg =
        round2 ((ev.raw_stats.total_tokens : ℚ)
          / (ev.raw_stats.total_questions : ℚ))
    ∧ ev.metrics.error_rate =
        round2 ((ev.raw_stats.errors : ℚ)
          / (ev.raw_stats.total_questions : ℚ) * 100)
    ∧ ev.metrics.consistency =
        round2 (100 - (ev.raw_stats.errors : ℚ)
          / (ev.raw_stats.total_questions : ℚ) * 100)
    ∧ (∀ (s : RawStats) (r : AgentResponse), r.error.isSome = true →
        updateStats s r =
          { s with total_questions := s.total_questions + 1
                   errors := s.errors + 1 })
    ∧ (∀ s : RawStats, s.total_questions = 0 →
        (metricsOf s).accuracy = 0 ∧ (metricsOf s).latency_avg = 0
        ∧ (metricsOf s).tokens_avg = 0 ∧ (metricsOf s).error_rate = 0) := by
  obtain ⟨hraw, hm, hne⟩ := mem_evaluate_results h
  have hpos : 0 < ev.raw_stats.total_questions := by
    rw [hraw]
    show 0 < (respFor results a).length
    cases hr : respFor results a with
    | nil => rw [hr] at hne; simp at hne
    | cons x xs => simp
  refine ⟨hraw, hpos, ?_, ?_, ?_, ?_, ?_, ?_, ?_⟩
  · rw [hm]; simp only [metricsOf, if_pos hpos]
  · rw [hm]; simp only [metricsOf, if_pos hpos]
  · rw [hm]; simp only [metricsOf, if_pos hpos]
  · rw [hm]; simp only [metricsOf, if_pos hpos]
  · rw [hm]; simp only [metricsOf, if_pos hpos]
  · intro s r herr
    rw [updateStats_eq]
    have h1 : r.error.isNone = false := by
      cases he : r.error
      · rw [he] at herr; simp at herr
      · simp [he]
    simp [h1, herr, contribLat, contribTok]
  · intro s h0
    unfold metricsOf
    rw [if_neg (by omega), if_neg (by omega), if_neg (by omega),
      if_neg (by omega)]
    simp [round2_zero]

/-- Input for the C1 witness: one agent answering 7 of 10 questions
correctly. -/
def exC1w : List QuestionResult :=
  [⟨[{ agent := "a", error := none, correct := true, response := none },
     { agent := "a", error := none, correct := true, response := none },
     { agent := "a", error := none, correct := true, response := none },
     { agent := "a", error := none, correct := true, response := none },
     { agent := "a", error := none, correct := true, response := none },
     { agent := "a", error := none, correct := true, response := none },
     { agent := "a", error := none, correct := true, response := none },
     { agent := "a", error := none, correct := false, response := none },
     { agent := "a", error := none, correct := false, response := none },
     { agent := "a", error := none, correct := false, response := none }]⟩]

/-- The evaluator output entry for the C1 witness run. -/
def evW : AgentEval :=
  { metrics := { accuracy := 70, latency_avg := 0, tokens_avg := 0
                 error_rate := 0, consistency := 100 }
    raw_stats := { total_questions := 10, correct_answers := 7
                   total_latency := 0, total_tokens := 0, errors := 0 } }

theorem C1_evaluator_accumulation_witness :
    ("a", evW) ∈ evaluate_results exC1w
    ∧ evW.raw_stats = statsOfList (respFor exC1w "a")
    ∧ evW.metrics.accuracy =
        round2 ((evW.raw_stats.correct_answers : ℚ)
          / (evW.raw_stats.total_questions : ℚ) * 100)
    ∧ evW.metrics.accuracy = 70 := by
  have h1 : accumStats exC1w = [("a", evW.raw_stats)] := by
    norm_num [exC1w, accumStats, upsert, alookup, updateStats, RawStats.init, evW]
  have h2 : metricsOf evW.raw_stats = evW.metrics := by
    unfold metricsOf evW
    norm_num
    refine ⟨?_, round2_zero, ?_⟩
    · have := round2_intCast 70
      norm_num at this
      exact this
    · have := round2_intCast 100
      norm_num at this
      exact this
  have hmem : ("a", evW) ∈ evaluate_results exC1w := by
    have h0 : evaluate_results exC1w =
        (accumStats exC1w).map
          (fun p => (p.1, { metrics := metricsOf p.2, raw_stats := p.2 })) := by
      unfold evaluate_results
      rw [if_neg (by simp [exC1w])]
    rw [h0, h1]
    simp only [List.map_cons, List.map_nil, h2]
    simp
  have hconc := C1_evaluator_accumulation exC1w "a" evW hmem
  refine ⟨hmem, hconc.1, hconc.2.2.1, ?_⟩
  rw [hconc.2.2.1]
  show round2 (((7 : ℕ) : ℚ) / ((10 : ℕ) : ℚ) * 100) = 70
  rw [show ((7 : ℕ) : ℚ) / ((10 : ℕ) : ℚ) * 100 = ((70 : ℤ) : ℚ) by norm_num,
    round2_intCast]
  norm_num

theorem total_questions_pos {results : List QuestionResult} {a : String}
    {ev : AgentEval} (h : (a, ev) ∈ evaluate_results results) :
    0 < ev.raw_stats.total_questions := by
  obtain ⟨hraw, _, hne⟩ := mem_evaluate_results h
  rw [hraw]
  show 0 < (respFor results a).length
  cases hr : respFor results a with
  | nil => rw [hr] at hne; simp at hne
  | cons x xs => simp

/-- C9: the evaluator stores an entry for an agent only when at least one
response of the run names that agent, hence every stored entry has
`total_questions ≥ 1` and the `total_questions == 0` fallbacks are dead
code for stored entries; the empty input yields the empty map. -/
theorem C9_entries_need_responses (results : List QuestionResult) :
    (∀ (a : String) (ev : AgentEval), (a, ev) ∈ evaluate_results results →
      1 ≤ ev.raw_stats.total_questions
      ∧ ∃ r ∈ responsesOf results, r.agent = a)
    ∧ evaluate_results [] = [] := by
  constructor
  · intro a ev h
    refine ⟨total_questions_pos h, ?_⟩
    obtain ⟨hraw, _, hne⟩ := mem_evaluate_results h
    cases hr : respFor results a with
    | nil => rw [hr] at hne; simp at hne
    | cons x xs =>
      have hx : x ∈ respFor results a := by
        rw [hr]
        exact List.mem_cons_self x xs
      obtain ⟨hmem, hbeq⟩ := List.mem_filter.mp hx
      exact ⟨x, hmem, by simpa using hbeq⟩
  · rfl

/-- Input for the C9 witness: a single response by agent `"b"`. -/
def exC9w : List QuestionResult :=
  [⟨[{ agent := "b", error := none, correct := true, response := none }]⟩]

/-- The evaluator output entry for the C9 witness run. -/
def evC9 : AgentEval :=
  { metrics := { accuracy := 100, latency_avg := 0, tokens_avg := 0
                 error_rate := 0, consistency := 100 }
    raw_stats := { total_questions := 1, correct_answers := 1
                   total_latency := 0, total_tokens := 0, errors := 0 } }

theorem C9_entries_need_responses_witness :
    1 ≤ evC9.raw_stats.total_questions
    ∧ (∃ r ∈ responsesOf exC9w, r.agent = "b") := by
  have h2 : metricsOf evC9.raw_stats = evC9.metrics := by
    unfold metricsOf evC9
    norm_num
    exact ⟨round2_eq_int 100 _ (by norm_num), round2_zero,
      round2_eq_int 100 _ (by norm_num)⟩
  have hmem : ("b", evC9) ∈ evaluate_results exC9w := by
    have h1 : accumStats exC9w = [("b", evC9.raw_stats)] := by
      norm_num [exC9w, accumStats, upsert, alookup, updateStats, RawStats.init, evC9]
    have h0 : evaluate_results exC9w =
        (accumStats exC9w).map
          (fun p => (p.1, { metrics := metricsOf p.2, raw_stats := p.2 })) := by
      unfold evaluate_results
      rw [if_neg (by simp [exC9w])]
    rw [h0, h1]
    simp only [List.map_cons, List.map_nil, h2]
    simp
  exact (C9_entries_need_responses exC9w).1 "b" evC9 hmem

/-- C2: for every input, the evaluator's output map has pairwise-distinct
agent keys and each entry satisfies `accuracy ∈ [0,100]`,
`error_rate ∈ [0,100]`, `consistency = 100 - error_rate` exactly, and —
when all supplied latencies resp. token counts are non-negative —
`latency_avg ≥ 0` and `tokens_avg ≥ 0`. -/
theorem C2_invariants (results : List QuestionResult) :
    ((evaluate_results results).map Prod.fst).Nodup
    ∧ ∀ (a : String) (ev : AgentEval), (a, ev) ∈ evaluate_results results →
        (0 ≤ ev.metrics.accuracy ∧ ev.metrics.accuracy ≤ 100)
        ∧ (0 ≤ ev.metrics.error_rate ∧ ev.metrics.error_rate ≤ 100)
        ∧ ev.metrics.consistency = 100 - ev.metrics.error_rate
        ∧ ((∀ r ∈ responsesOf results, ∀ d : RespData, r.response = some d →
              0 ≤ d.latency.getD 0) → 0 ≤ ev.metrics.latency_avg)
        ∧ ((∀ r ∈ responsesOf results, ∀ d : RespData, r.response = some d →
              (0 : ℤ) ≤ d.total_tokens.getD 0) → 0 ≤ ev.metrics.tokens_avg) := by
  refine ⟨keys_evaluate_results_nodup results, ?_⟩
  intro a ev h
  obtain ⟨hraw, hm, hne⟩ := mem_evaluate_results h
  have hpos := total_questions_pos h
  have htq : (0 : ℚ) < (ev.raw_stats.total_questions : ℚ) := by
    exact_mod_cast hpos
  have hc_le : ev.raw_stats.correct_answers ≤ ev.raw_stats.total_questions := by
    rw [hraw]
    exact List.length_filter_le _ _
  have he_le : ev.raw_stats.errors ≤ ev.raw_stats.total_questions := by
    rw [hraw]
    exact List.length_filter_le _ _
  have hacc_lo : (0 : ℚ) ≤ (ev.raw_stats.correct_answers : ℚ)
      / (ev.raw_stats.total_questions : ℚ) * 100 := by positivity
  have hacc_hi : (ev.raw_stats.correct_answers : ℚ)
      / (ev.raw_stats.total_questions : ℚ) * 100 ≤ 100 := by
    have h1 : ((ev.raw_stats.correct_answers : ℚ))
        ≤ (ev.raw_stats.total_questions : ℚ) := by exact_mod_cast hc_le
    rw [div_mul_eq_mul_div, div_le_iff htq]
    nlinarith
  have herr_lo : (0 : ℚ) ≤ (ev.raw_stats.errors : ℚ)
      / (ev.raw_stats.total_questions : ℚ) * 100 := by positivity
  have herr_hi : (ev.raw_stats.errors : ℚ)
      / (ev.raw_stats.total_questions : ℚ) * 100 ≤ 100 := by
    have h1 : ((ev.raw_stats.errors : ℚ))
        ≤ (ev.raw_stats.total_questions : ℚ) := by exact_mod_cast he_le
    rw [div_mul_eq_mul_div, div_le_iff htq]
    nlinarith
  refine ⟨?_, ?_, ?_, ?_, ?_⟩
  · rw [hm]
    simp only [metricsOf, if_pos hpos]
    exact ⟨round2_nonneg hacc_lo, round2_le_100 hacc_hi⟩
  · rw [hm]
    simp only [metricsOf, if_pos hpos]
    exact ⟨round2_nonneg herr_lo, round2_le_100 herr_hi⟩
  · rw [hm]
    simp only [metricsOf, if_pos hpos]
    rw [round2_100_sub]
  · intro hlat
    rw [hm]
    simp only [metricsOf, if_pos hpos]
    apply round2_nonneg
    apply div_nonneg _ (le_of_lt htq)
    rw [hraw]
    show (0 : ℚ) ≤ ((respFor results a).map contribLat).sum
    apply List.sum_nonneg
    intro x hx
    obtain ⟨r, hr, hxr⟩ := List.mem_map.mp hx
    have hrm : r ∈ responsesOf results := List.mem_of_mem_filter hr
    rw [← hxr]
    unfold contribLat
    by_cases herr : r.error.isNone
    · rw [if_pos herr]
      cases hresp : r.response with
      | none => simp
      | some d =>
        have := hlat r hrm d hresp
        cases hl : d.latency with
        | none => simp [hresp, hl]
        | some l =>
          rw [hl] at this
          simpa [hresp, hl] using this
    · rw [if_neg herr]
  · intro htok
    rw [hm]
    simp only [metricsOf, if_pos hpos]
    apply round2_nonneg
    apply div_nonneg _ (le_of_lt htq)
    rw [hraw]
    show (0 : ℚ) ≤ (((respFor results a).map contribTok).sum : ℚ)
    have : (0 : ℤ) ≤ ((respFor results a).map contribTok).sum := by
      apply List.sum_nonneg
      intro x hx
      obtain ⟨r, hr, hxr⟩ := List.mem_map.mp hx
      have hrm : r ∈ responsesOf results := List.mem_of_mem_filter hr
      rw [← hxr]
      unfold contribTok
      by_cases herr : r.error.isNone
      · rw [if_pos herr]
        cases hresp : r.response with
        | none => simp
        | some d =>
          have := htok r hrm d hresp
          cases hl : d.total_tokens with
          | none => simp [hresp, hl]
          | some t =>
            rw [hl] at this
            simpa [hresp, hl] using this
      · rw [if_neg herr]
    exact_mod_cast this

/-- Input for the C2 witness: one agent, one successful response with
latency 2 and 50 tokens. -/
def exC2w : List QuestionResult :=
  [⟨[{ agent := "c", error := none, correct := true
       response := some { latency := some 2, total_tokens := some 50 } }]⟩]

/-- The evaluator output entry for the C2 witness run. -/
def evC2 : AgentEval :=
  { metrics := { accuracy := 100, latency_avg := 2, tokens_avg := 50
                 error_rate := 0, consistency := 100 }
    raw_stats := { total_questions := 1, correct_answers := 1
                   total_latency := 2, total_tokens := 50, errors := 0 } }

theorem C2_invariants_witness :
    ((evaluate_results exC2w).map Prod.fst).Nodup
    ∧ (0 ≤ evC2.metrics.accuracy ∧ evC2.metrics.accuracy ≤ 100)
    ∧ evC2.metrics.consistency = 100 - evC2.metrics.error_rate
    ∧ 0 ≤ evC2.metrics.latency_avg
    ∧ 0 ≤ evC2.metrics.tokens_avg := by
  have h2 : metricsOf evC2.raw_stats = evC2.metrics := by
    unfold metricsOf evC2
    norm_num
    exact ⟨round2_eq_int 100 _ (by norm_num), round2_eq_int 2 _ (by norm_num),
      round2_eq_int 50 _ (by norm_num), round2_zero,
      round2_eq_int 100 _ (by norm_num)⟩
  have hmem : ("c", evC2) ∈ evaluate_results exC2w := by
    have h1 : accumStats exC2w = [("c", evC2.raw_stats)] := by
      norm_num [exC2w, accumStats, upsert, alookup, updateStats, RawStats.init, evC2]
    have h0 : evaluate_results exC2w =
        (accumStats exC2w).map
          (fun p => (p.1, { metrics := metricsOf p.2, raw_stats := p.2 })) := by
      unfold evaluate_results
      rw [if_neg (by simp [exC2w])]
    rw [h0, h1]
    simp only [List.map_cons, List.map_nil, h2]
    simp
  have h := C2_invariants exC2w
  have hent := h.2 "c" evC2 hmem
  refine ⟨h.1, hent.1, hent.2.2.1, ?_, ?_⟩
  · apply hent.2.2.2.1
    intro r hr d hd
    simp only [responsesOf, exC2w] at hr
    simp at hr
    rw [hr] at hd
    simp at hd
    rw [← hd]
    norm_num
  · apply hent.2.2.2.2
    intro r hr d hd
    simp only [responsesOf, exC2w] at hr
    simp at hr
    rw [hr] at hd
    simp at hd
    rw [← hd]
    norm_num

/-- C10: `analyze_benchmark_results` and `deduct_patterns` return the
empty dict (modelled `none`) exactly when the input lacks the `"agents"`
key (which subsumes the empty-input case), the analytics history is left
untouched in that case, and — being total functions — neither raises. -/
theorem C10_empty_guard (hist : List AnalysisReport) (input : BenchInput)
    (now : String) :
    ((analyze_benchmark_results hist input now).2 = none ↔ input.agents = none)
    ∧ (input.agents = none →
        (analyze_benchmark_results hist input now).1 = hist)
    ∧ (deduct_patterns input = none ↔ input.agents = none) := by
  rcases input with ⟨b, ags⟩
  cases ags <;> simp [analyze_benchmark_results, deduct_patterns]

theorem C10_empty_guard_witness :
    (analyze_benchmark_results [] { benchmark := none, agents := none } "t").2
        = none
    ∧ (analyze_benchmark_results [] { benchmark := none, agents := none } "t").1
        = []
    ∧ deduct_patterns { benchmark := none, agents := none } = none := by
  have h := C10_empty_guard [] { benchmark := none, agents := none } "t"
  exact ⟨h.1.mpr rfl, h.2.1 rfl, h.2.2.mpr rfl⟩

/-- The correctness rule as the spec words it: exact string match of the
answer text against the expected answer, no normalization. -/
def spec_exact_correct (resp_text : Option String) (expected : String) : Bool :=
  match resp_text with
  | some t => t == expected
  | none => false

/-- C7, counterexample: the worker strips leading/trailing whitespace from
the agent's answer before comparing (`response.get("response", "").strip()`),
so the answer `"4 "` against expected `"4"` is marked correct although the
claimed exact match (no normalization) rejects it. -/
theorem C7_counterexample :
    decide_correct (some "4 ") "4" = true
    ∧ spec_exact_correct (some "4 ") "4" = false := by
  constructor
  · decide
  · decide

/-- C7 (amended): the worker's `correct` flag is the exact, case-sensitive
match of the *whitespace-stripped* answer text against the expected answer
(which itself is not stripped); interior whitespace and letter case remain
significant; a reply without a `"response"` key, and a response recorded
for a query that raised, have `correct = false`. -/
theorem C7_strip_then_exact_match (t e : String) :
    (decide_correct (some t) e = true ↔ pyStrip t = e)
    ∧ decide_correct none e = false
    ∧ (∀ ag err, (response_on_failure ag err).correct = false)
    ∧ decide_correct (some "A") "a" = false
    ∧ decide_correct (some "a b") "ab" = false := by
  refine ⟨?_, rfl, fun ag err => rfl, by decide, by decide⟩
  show (pyStrip t == e) = true ↔ pyStrip t = e
  exact beq_iff_eq

/-- Agent used by the C6 example input. -/
def agC6 : AAgent := { id := "x", metrics := [("accuracy", 80)], category_scores := [] }

/-- Input for C6: a well-formed benchmark-results dict with one agent. -/
def exC6in : BenchInput := { benchmark := some "bench", agents := some [agC6] }

/-- C6, counterexample: two calls of `analyze_benchmark_results` on the
same input return different outputs whenever the wall-clock readings
differ (the report embeds `datetime.now().isoformat()`), and the first
call already mutates the hidden `metrics_history` state — so `analyze` is
neither idempotent in its output nor free of hidden mutable state. -/
theorem C6_counterexample :
    (analyze_benchmark_results [] exC6in "2024-01-01T00:00:00").2 ≠
      (analyze_benchmark_results
        (analyze_benchmark_results [] exC6in "2024-01-01T00:00:00").1
        exC6in "2024-01-01T00:00:01").2
    ∧ (analyze_benchmark_results [] exC6in "2024-01-01T00:00:00").1 ≠ [] := by
  constructor
  · intro h
    have h1 : (analyze_benchmark_results [] exC6in "2024-01-01T00:00:00").2 =
        some (buildAnalysis exC6in [agC6] "2024-01-01T00:00:00") := rfl
    have h2 : (analyze_benchmark_results
        (analyze_benchmark_results [] exC6in "2024-01-01T00:00:00").1
        exC6in "2024-01-01T00:00:01").2 =
        some (buildAnalysis exC6in [agC6] "2024-01-01T00:00:01") := rfl
    rw [h1, h2] at h
    have h3 := congrArg (fun o => o.map AnalysisReport.timestamp) h
    simp [buildAnalysis] at h3
  · intro h
    have h1 : (analyze_benchmark_results [] exC6in "2024-01-01T00:00:00").1 =
        [buildAnalysis exC6in [agC6] "2024-01-01T00:00:00"] := rfl
    rw [h1] at h
    simp at h

/-- C6 (amended): the report returned by `analyze_benchmark_results` is a
deterministic function of the input and the clock reading alone — it does
not depend on the accumulated `metrics_history` — and two runs on the same
input agree on every field except `timestamp`, which echoes the clock; the
method does, however, append each produced report to `metrics_history`
(hidden mutable state), and leaves the history untouched exactly when it
returns the empty dict. -/
theorem C6_analyze_pure_modulo_clock (hist hist2 : List AnalysisReport)
    (input : BenchInput) (t1 t2 : String) :
    (analyze_benchmark_results hist input t1).2
      = (analyze_benchmark_results hist2 input t1).2
    ∧ (analyze_benchmark_results hist input t1).2.map
        AnalysisReport.benchmark_id
      = (analyze_benchmark_results hist2 input t2).2.map
        AnalysisReport.benchmark_id
    ∧ (analyze_benchmark_results hist input t1).2.map
        AnalysisReport.total_agents
      = (analyze_benchmark_results hist2 input t2).2.map
        AnalysisReport.total_agents
    ∧ (analyze_benchmark_results hist input t1).2.map
        AnalysisReport.performance_metrics
      = (analyze_benchmark_results hist2 input t2).2.map
        AnalysisReport.performance_metrics
    ∧ (analyze_benchmark_results hist input t1).2.map
        AnalysisReport.comparative_analysis
      = (analyze_benchmark_results hist2 input t2).2.map
        AnalysisReport.comparative_analysis
    ∧ (analyze_benchmark_results hist input t1).2.map
        AnalysisReport.statistical_summary
      = (analyze_benchmark_results hist2 input t2).2.map
        AnalysisReport.statistical_summary
    ∧ (analyze_benchmark_results hist input t1).2.map AnalysisReport.insights
      = (analyze_benchmark_results hist2 input t2).2.map
        AnalysisReport.insights
    ∧ (∀ r, (analyze_benchmark_results hist input t1).2 = some r →
        r.timestamp = t1
        ∧ (analyze_benchmark_results hist input t1).1 = hist ++ [r])
    ∧ ((analyze_benchmark_results hist input t1).2 = none →
        (analyze_benchmark_results hist input t1).1 = hist) := by
  rcases input with ⟨b, ags⟩
  cases ags with
  | none => simp [analyze_benchmark_results]
  | some l =>
    refine ⟨rfl, rfl, rfl, rfl, rfl, rfl, rfl, ?_, ?_⟩
    · intro r hr
      have hr2 : some (buildAnalysis ⟨b, some l⟩ l t1) = some r := hr
      have : r = buildAnalysis ⟨b, some l⟩ l t1 := (Option.some.inj hr2).symm
      rw [this]
      exact ⟨rfl, rfl⟩
    · intro hr
      simp [analyze_benchmark_results] at hr

theorem C6_analyze_pure_modulo_clock_witness :
    (buildAnalysis exC6in [agC6] "t1").timestamp = "t1"
    ∧ (analyze_benchmark_results [] exC6in "t1").1
        = [] ++ [buildAnalysis exC6in [agC6] "t1"] := by
  have h := C6_analyze_pure_modulo_clock [] [] exC6in "t1" "t2"
  exact h.2.2.2.2.2.2.2.1 (buildAnalysis exC6in [agC6] "t1") rfl

/-! #### C8: insight rules -/

theorem str_app_left_inj (s : String) {t u : String} :
    s ++ t = s ++ u ↔ t = u := by
  constructor
  · intro h
    have h2 := congrArg String.data h
    simp only [String.data_append] at h2
    exact String.ext (List.append_cancel_left h2)
  · intro h
    rw [h]

/-- Agent for the C8 counterexample: accuracy 75, latency 2, 300 tokens. -/
def agC8 : AAgent :=
  { id := "x"
    metrics := [("accuracy", 75), ("latency_avg", 2), ("tokens_avg", 300)]
    category_scores := [] }

/-- C8, counterexample: the latency insight fires at `latency ≤ 2.0`, not
at the rating-bucket boundary `≤ 1`: the agent with latency 2 receives the
excellent-response-time insight although its latency rating is `"Good"`,
so the insight rules do not fire at the rating-bucket thresholds. -/
theorem C8_counterexample :
    generate_insights [agC8] = ["x tem excelente tempo de resposta (≤2s)"]
    ∧ rate_latency 2 = "Good"
    ∧ ¬ ((2 : ℚ) ≤ 1) := by
  refine ⟨?_, ?_, by norm_num⟩
  · norm_num [generate_insights, insightsFor, agC8, mget, alookup,
      tokens_per_second,
      show ("accuracy" : String) ≠ "latency_avg" from by decide,
      show ("accuracy" : String) ≠ "tokens_avg" from by decide,
      show ("latency_avg" : String) ≠ "tokens_avg" from by decide]
    decide
  · norm_num [rate_latency]

/-- C8 (amended): insights are generated per agent in the order accuracy
rules, latency rules, efficiency rules, with every matching rule's string
appended and none suppressed.  The accuracy rules fire at the rating-bucket
thresholds (`≥90`, else `≥80`, else `<70`) and the efficiency rules at
`tokens_per_second > 500` resp. `< 100` as claimed, but the latency rules
fire at `latency ≤ 2.0` (excellent response time) and `> 5.0` (high
latency) — thresholds that do not coincide with the latency rating buckets
`≤1 / ≤3 / ≤5`. -/
theorem C8_insight_rules (a : AAgent) (agents : List AAgent) :
    generate_insights agents = agents.flatMap insightsFor
    ∧ insightsFor a
      = (if mget a "accuracy" ≥ 90 then
            [a.id ++ " demonstra excelente precisão (≥90%)"]
          else if mget a "accuracy" ≥ 80 then
            [a.id ++ " mostra boa precisão (80-89%)"]
          else if mget a "accuracy" < 70 then
            [a.id ++ " precisa de melhorias na precisão (<70%)"]
          else [])
        ++ (if mget a "latency_avg" ≤ 2 then
              [a.id ++ " tem excelente tempo de resposta (≤2s)"]
            else if mget a "latency_avg" > 5 then
              [a.id ++ " apresenta latência alta (>5s)"]
            else [])
        ++ (if tokens_per_second (mget a "tokens_avg") (mget a "latency_avg")
              > 500 then
              [a.id ++ " é muito eficiente em processamento de tokens"]
            else if tokens_per_second (mget a "tokens_avg")
              (mget a "latency_avg") < 100 then
              [a.id ++ " poderia ser mais eficiente no processamento de tokens"]
            else [])
    ∧ ((a.id ++ " demonstra excelente precisão (≥90%)") ∈ insightsFor a
        ↔ mget a "accuracy" ≥ 90)
    ∧ ((a.id ++ " mostra boa precisão (80-89%)") ∈ insightsFor a
        ↔ (¬ mget a "accuracy" ≥ 90 ∧ mget a "accuracy" ≥ 80))
    ∧ ((a.id ++ " precisa de melhorias na precisão (<70%)") ∈ insightsFor a
        ↔ mget a "accuracy" < 70)
    ∧ ((a.id ++ " tem excelente tempo de resposta (≤2s)") ∈ insightsFor a
        ↔ mget a "latency_avg" ≤ 2)
    ∧ ((a.id ++ " apresenta latência alta (>5s)") ∈ insightsFor a
        ↔ (¬ mget a "latency_avg" ≤ 2 ∧ mget a "latency_avg" > 5))
    ∧ ((a.id ++ " é muito eficiente em processamento de tokens")
          ∈ insightsFor a
        ↔ tokens_per_second (mget a "tokens_avg") (mget a "latency_avg") > 500)
    ∧ ((a.id ++ " poderia ser mais eficiente no processamento de tokens")
          ∈ insightsFor a
        ↔ (¬ tokens_per_second (mget a "tokens_avg") (mget a "latency_avg")
              > 500
            ∧ tokens_per_second (mget a "tokens_avg") (mget a "latency_avg")
              < 100))
    ∧ (rate_accuracy (mget a "accuracy") = "Excellent"
        ↔ mget a "accuracy" ≥ 90)
    ∧ (rate_latency (mget a "latency_avg") = "Excellent"
        ↔ mget a "latency_avg" ≤ 1) := by
  refine ⟨rfl, rfl, ?_, ?_, ?_, ?_, ?_, ?_, ?_, ?_, ?_⟩
  · simp only [insightsFor]
    split_ifs with h1 h2 h3 h4 h5 h6 h7 <;>
      simp_all [str_app_left_inj] <;> linarith
  · simp only [insightsFor]
    split_ifs with h1 h2 h3 h4 h5 h6 h7 <;>
      simp_all [str_app_left_inj] <;> linarith
  · simp only [insightsFor]
    split_ifs with h1 h2 h3 h4 h5 h6 h7 <;>
      simp_all [str_app_left_inj] <;> linarith
  · simp only [insightsFor]
    split_ifs with h1 h2 h3 h4 h5 h6 h7 <;>
      simp_all [str_app_left_inj] <;> linarith
  · simp only [insightsFor]
    split_ifs with h1 h2 h3 h4 h5 h6 h7 <;>
      simp_all [str_app_left_inj] <;> linarith
  · simp only [insightsFor]
    split_ifs with h1 h2 h3 h4 h5 h6 h7 <;>
      simp_all [str_app_left_inj] <;> linarith
  · simp only [insightsFor]
    split_ifs with h1 h2 h3 h4 h5 h6 h7 <;>
      simp_all [str_app_left_inj] <;> linarith
  · unfold rate_accuracy
    split_ifs with h1 h2 h3 <;> simp_all <;> linarith
  · unfold rate_latency
    split_ifs with h1 h2 h3 <;> simp_all <;> linarith

/-! #### C5: anomaly detection -/

theorem no_outlier_three (v x y z : ℚ) (hv : v = x ∨ v = y ∨ v = z) :
    ltMeanSub2Std v (meanQ [x, y, z]) (varQ [x, y, z]) = false
    ∧ gtMeanAdd2Std v (meanQ [x, y, z]) (varQ [x, y, z]) = false := by
  have hm : meanQ [x, y, z] = (x + y + z) / 3 := by
    simp [meanQ]
    ring
  have hvq : varQ [x, y, z] =
      ((x - (x + y + z) / 3) ^ 2 + ((y - (x + y + z) / 3) ^ 2
        + (z - (x + y + z) / 3) ^ 2)) / 3 := by
    simp [varQ, hm]
  have hkey : (meanQ [x, y, z] - v) ^ 2 ≤ 4 * varQ [x, y, z] := by
    rw [hm, hvq]
    rcases hv with rfl | rfl | rfl
    · nlinarith [sq_nonneg (2 * v - y - z), sq_nonneg (2 * y - v - z),
        sq_nonneg (2 * z - v - y)]
    · nlinarith [sq_nonneg (2 * v - x - z), sq_nonneg (2 * x - v - z),
        sq_nonneg (2 * z - v - x)]
    · nlinarith [sq_nonneg (2 * v - x - y), sq_nonneg (2 * x - v - y),
        sq_nonneg (2 * y - v - x)]
  constructor
  · unfold ltMeanSub2Std
    rw [decide_eq_false_iff_not]
    rintro ⟨h1, h2⟩
    nlinarith
  · unfold gtMeanAdd2Std
    rw [decide_eq_false_iff_not]
    rintro ⟨h1, h2⟩
    nlinarith

theorem anomaliesFor_three (agents : List AAgent) (nm : String)
    (h : agents.length = 3) : anomaliesFor agents nm = [] := by
  match agents, h with
  | [a, b, c], _ =>
    unfold anomaliesFor
    simp only [List.map_cons, List.map_nil, List.length_cons,
      List.length_nil]
    rw [if_pos (by norm_num)]
    have ha := no_outlier_three (mget a (metricKeyOf nm))
      (mget a (metricKeyOf nm)) (mget b (metricKeyOf nm))
      (mget c (metricKeyOf nm)) (Or.inl rfl)
    have hb := no_outlier_three (mget b (metricKeyOf nm))
      (mget a (metricKeyOf nm)) (mget b (metricKeyOf nm))
      (mget c (metricKeyOf nm)) (Or.inr (Or.inl rfl))
    have hc := no_outlier_three (mget c (metricKeyOf nm))
      (mget a (metricKeyOf nm)) (mget b (metricKeyOf nm))
      (mget c (metricKeyOf nm)) (Or.inr (Or.inr rfl))
    simp [List.filterMap_cons, ha.1, ha.2, hb.1, hb.2, hc.1, hc.2]

/-- C5 (amended): with exactly three agents, anomaly detection flags
nothing at all — for population standard deviation over `n` points the
largest possible deviation is `(n-1)/√n ≈ 1.155` standard deviations at
`n = 3`, strictly inside the `mean ± 2·std` band — so in particular the
agent with accuracy 70 among `[85, 87, 70]` is *not* flagged. -/
theorem C5_three_agents_no_anomalies (agents : List AAgent)
    (h : agents.length = 3) : detect_anomalies agents = [] := by
  unfold detect_anomalies
  simp [anomaliesFor_three agents _ h]

/-- The spec's §8 anomaly example: accuracies 85, 87, 70 (the remaining
metrics equal across agents). -/
def exC5 : List AAgent :=
  [{ id := "a1"
     metrics := [("accuracy", 85), ("latency_avg", 2), ("tokens_avg", 1000),
       ("consistency", 4)]
     category_scores := [] },
   { id := "a2"
     metrics := [("accuracy", 87), ("latency_avg", 2), ("tokens_avg", 1000),
       ("consistency", 4)]
     category_scores := [] },
   { id := "a3"
     metrics := [("accuracy", 70), ("latency_avg", 2), ("tokens_avg", 1000),
       ("consistency", 4)]
     category_scores := [] }]

/-- C5, counterexample: on a three-agent input with accuracies
`[85, 87, 70]` the detector reports *no* anomaly — the claimed
`LOW_OUTLIER` flag for the 70-accuracy agent never appears, since
`mean - 2·std ≈ 65.49 < 70`. -/
theorem C5_counterexample :
    detect_anomalies exC5 = []
    ∧ exC5.map (fun a => mget a "accuracy") = [85, 87, 70] := by
  constructor
  · have h : ∀ nm, anomaliesFor exC5 nm = [] := fun nm =>
      anomaliesFor_three exC5 nm rfl
    simp [detect_anomalies, h]
  · simp [exC5, mget, alookup]

theorem C5_three_agents_no_anomalies_witness :
    detect_anomalies exC5 = [] ∧ exC5.length = 3 :=
  ⟨C5_three_agents_no_anomalies exC5 rfl, rfl⟩

/-! #### C4: statistical summary -/

theorem foldl_append_snd {β : Type} (pairs : List (String × β)) (acc : List β) :
    pairs.foldl (fun l p => l ++ [p.2]) acc = acc ++ pairs.map Prod.snd := by
  induction pairs generalizing acc with
  | nil => simp
  | cons p pairs ih => simp [ih]

/-- The metric-collection dict of `_generate_statistical_summary`. -/
def statColl (agents : List AAgent) : List (String × List ℚ) :=
  (agents.flatMap AAgent.metrics).foldl
    (fun m p => upsert m p.1 (fun o => (o.getD []) ++ [p.2])) []

/-- The values collected for metric `k`, recomputed by filtering. -/
def collectedVals (agents : List AAgent) (k : String) : List ℚ :=
  ((agents.flatMap AAgent.metrics).filter (fun p => p.1 == k)).map Prod.snd

theorem alookup_statColl (agents : List AAgent) (k : String) :
    alookup k (statColl agents) =
      if collectedVals agents k = [] then none
      else some (collectedVals agents k) := by
  unfold statColl collectedVals
  rw [alookup_foldl_upsert Prod.fst (fun o p => (o.getD []) ++ [p.2])]
  simp only [alookup]
  cases hf : (agents.flatMap AAgent.metrics).filter (fun p => p.1 == k) with
  | nil => simp
  | cons p pairs =>
    simp only [List.foldl_cons, Option.getD_none, List.nil_append]
    rw [foldl_optionStep_some (fun l q => l ++ [q.2]) [] pairs [p.2]]
    rw [foldl_append_snd]
    simp

theorem statColl_keys_nodup (agents : List AAgent) :
    ((statColl agents).map Prod.fst).Nodup :=
  nodupKeys_foldl_upsert Prod.fst (fun o p => (o.getD []) ++ [p.2]) _ []
    (by simp)

theorem mem_statColl {agents : List AAgent} {k : String} {l : List ℚ}
    (h : (k, l) ∈ statColl agents) :
    l = collectedVals agents k ∧ l ≠ [] := by
  have hl := alookup_of_mem_of_nodup h (statColl_keys_nodup agents)
  rw [alookup_statColl] at hl
  by_cases hc : collectedVals agents k = []
  · rw [if_pos hc] at hl
    simp at hl
  · rw [if_neg hc] at hl
    have : l = collectedVals agents k := by injection hl.symm
    exact ⟨this, this ▸ hc⟩

theorem statColl_key_mem (agents : List AAgent) (k : String) :
    k ∈ (statColl agents).map Prod.fst ↔
      ∃ a ∈ agents, k ∈ a.metrics.map Prod.fst := by
  constructor
  · intro h
    obtain ⟨p, hp, hpk⟩ := List.mem_map.mp h
    have hpp : (k, p.2) ∈ statColl agents := by
      have : p = (k, p.2) := by
        rw [← hpk]
      rw [← this]
      exact hp
    obtain ⟨hval, hne⟩ := mem_statColl hpp
    rw [hval] at hne
    unfold collectedVals at hne
    cases hf : (agents.flatMap AAgent.metrics).filter (fun q => q.1 == k) with
    | nil => rw [hf] at hne; simp at hne
    | cons q qs =>
      have hq : q ∈ (agents.flatMap AAgent.metrics).filter
          (fun q => q.1 == k) := by
        rw [hf]
        exact List.mem_cons_self q qs
      obtain ⟨hqm, hqk⟩ := List.mem_filter.mp hq
      obtain ⟨a, ha, haq⟩ := List.mem_flatMap.mp hqm
      refine ⟨a, ha, ?_⟩
      have : q.1 = k := by simpa using hqk
      rw [← this]
      exact List.mem_map.mpr ⟨q, haq, rfl⟩
  · intro ⟨a, ha, hk⟩
    obtain ⟨p, hpm, hpk⟩ := List.mem_map.mp hk
    have hmem : p ∈ agents.flatMap AAgent.metrics :=
      List.mem_flatMap.mpr ⟨a, ha, hpm⟩
    have hfil : p ∈ (agents.flatMap AAgent.metrics).filter
        (fun q => q.1 == k) :=
      List.mem_filter.mpr ⟨hmem, by simp [hpk]⟩
    have hne : collectedVals agents k ≠ [] := by
      unfold collectedVals
      intro hc
      rw [List.map_eq_nil_iff] at hc
      rw [hc] at hfil
      simp at hfil
    have hlook : alookup k (statColl agents) = some (collectedVals agents k) := by
      rw [alookup_statColl, if_neg hne]
    have : ¬ alookup k (statColl agents) = none := by
      rw [hlook]
      simp
    rw [alookup_eq_none_iff] at this
    exact not_not.mp this

theorem statColl_vals_nonempty (agents : List AAgent) :
    ∀ p ∈ statColl agents, ¬ p.2.isEmpty := by
  intro p hp
  have hpp : (p.1, p.2) ∈ statColl agents := hp
  obtain ⟨_, hne⟩ := mem_statColl hpp
  simpa [List.isEmpty_iff] using hne

/-- C4 (amended): the statistical summary has an entry for a metric name
iff that name occurs in the metrics map of *at least one* agent (not all
of them), and the entry holds the mean, the median, the population
standard deviation (stored squared as `std_dev_sq`), the minimum and the
maximum of the values collected, in agent order, for that metric name. -/
theorem C4_statistical_summary (agents : List AAgent) :
    (∀ k : String,
      k ∈ (generate_statistical_summary agents).map Prod.fst ↔
        ∃ a ∈ agents, k ∈ a.metrics.map Prod.fst)
    ∧ (∀ (k : String) (st : SummaryStats),
        (k, st) ∈ generate_statistical_summary agents →
          collectedVals agents k ≠ []
          ∧ st.mean = meanQ (collectedVals agents k)
          ∧ st.median = medianQ (collectedVals agents k)
          ∧ st.std_dev_sq = varQ (collectedVals agents k)
          ∧ st.smin = minQ (collectedVals agents k)
          ∧ st.smax = maxQ (collectedVals agents k)) := by
  have hunfold : generate_statistical_summary agents =
      if agents.isEmpty then []
      else ((statColl agents).filter (fun p => !p.2.isEmpty)).map
        (fun p => (p.1, summaryOf p.2)) := rfl
  by_cases hemp : agents.isEmpty
  · rw [hunfold, if_pos hemp]
    have : agents = [] := by
      cases agents with
      | nil => rfl
      | cons x xs => simp [List.isEmpty_cons] at hemp
    constructor
    · intro k
      simp [this]
    · intro k st h
      simp at h
  · rw [hunfold, if_neg hemp]
    have hfil : (statColl agents).filter (fun p => !p.2.isEmpty)
        = statColl agents := by
      apply List.filter_eq_self.mpr
      intro p hp
      have := statColl_vals_nonempty agents p hp
      simpa using this
    rw [hfil]
    constructor
    · intro k
      rw [← statColl_key_mem agents k]
      constructor
      · intro h
        obtain ⟨p, hp, hpk⟩ := List.mem_map.mp h
        obtain ⟨q, hq, hqp⟩ := List.mem_map.mp hp
        rw [← hpk, ← hqp]
        exact List.mem_map.mpr ⟨q, hq, rfl⟩
      · intro h
        obtain ⟨q, hq, hqk⟩ := List.mem_map.mp h
        exact List.mem_map.mpr ⟨(q.1, summaryOf q.2),
          List.mem_map.mpr ⟨q, hq, rfl⟩, hqk⟩
    · intro k st h
      obtain ⟨q, hq, hqe⟩ := List.mem_map.mp h
      have hk : q.1 = k := congrArg Prod.fst hqe
      have hst : st = summaryOf q.2 := (congrArg Prod.snd hqe).symm
      have hqq : (k, q.2) ∈ statColl agents := by
        rw [← hk]
        exact hq
      obtain ⟨hval, hne⟩ := mem_statColl hqq
      rw [hst, hval]
      exact ⟨hval ▸ hne, rfl, rfl, rfl, rfl, rfl⟩

/-- Input for the C4 counterexample: agent `"a"` has an `accuracy` metric,
agent `"b"` has an empty metrics map. -/
def exC4 : List AAgent :=
  [{ id := "a", metrics := [("accuracy", 1)], category_scores := [] },
   { id := "b", metrics := [], category_scores := [] }]

/-- C4, counterexample: the summary contains an `"accuracy"` entry even
though agent `"b"`'s metrics map lacks that key — entries exist for metric
names present in *some* agent, not only those present in *all* agents. -/
theorem C4_counterexample :
    (generate_statistical_summary exC4).map Prod.fst = ["accuracy"]
    ∧ ∃ a ∈ exC4, "accuracy" ∉ a.metrics.map Prod.fst := by
  constructor
  · norm_num [generate_statistical_summary, exC4, upsert, alookup, summaryOf]
  · exact ⟨{ id := "b", metrics := [], category_scores := [] },
      by simp [exC4], by simp⟩

/-- Input for the C4 witness: accuracies 80 and 90. -/
def exC4w : List AAgent :=
  [{ id := "x", metrics := [("accuracy", 80)], category_scores := [] },
   { id := "y", metrics := [("accuracy", 90)], category_scores := [] }]

theorem C4_statistical_summary_witness :
    generate_statistical_summary exC4w =
      [("accuracy", { mean := 85, median := 85, std_dev_sq := 25
                      smin := 80, smax := 90 })]
    ∧ ("accuracy" ∈ (generate_statistical_summary exC4w).map Prod.fst
        ↔ ∃ a ∈ exC4w, "accuracy" ∈ a.metrics.map Prod.fst)
    ∧ (collectedVals exC4w "accuracy" ≠ []
        ∧ ({ mean := 85, median := 85, std_dev_sq := 25, smin := 80
             smax := 90 } : SummaryStats).mean = meanQ (collectedVals exC4w "accuracy")
        ∧ ({ mean := 85, median := 85, std_dev_sq := 25, smin := 80
             smax := 90 } : SummaryStats).median = medianQ (collectedVals exC4w "accuracy")
        ∧ ({ mean := 85, median := 85, std_dev_sq := 25, smin := 80
             smax := 90 } : SummaryStats).std_dev_sq = varQ (collectedVals exC4w "accuracy")
        ∧ ({ mean := 85, median := 85, std_dev_sq := 25, smin := 80
             smax := 90 } : SummaryStats).smin = minQ (collectedVals exC4w "accuracy")
        ∧ ({ mean := 85, median := 85, std_dev_sq := 25, smin := 80
             smax := 90 } : SummaryStats).smax = maxQ (collectedVals exC4w "accuracy")) := by
  have hsum : generate_statistical_summary exC4w =
      [("accuracy", { mean := 85, median := 85, std_dev_sq := 25
                      smin := 80, smax := 90 })] := by
    norm_num [generate_statistical_summary, exC4w, upsert, alookup, summaryOf,
      meanQ, medianQ, varQ, minQ, maxQ, List.insertionSort, List.orderedInsert]
  refine ⟨hsum, (C4_statistical_summary exC4w).1 "accuracy", ?_⟩
  exact (C4_statistical_summary exC4w).2 "accuracy" _ (by rw [hsum]; simp)

/-! #### C3: comparative analysis -/

theorem maxPairAux_spec (m : List (String × ℚ)) (acc : String × ℚ) :
    ∃ p, m.foldl
        (fun acc p =>
          match acc with
          | none => some p
          | some q => if q.2 < p.2 then some p else some q)
        (some acc) = some p
      ∧ (p = acc ∨ p ∈ m) ∧ acc.2 ≤ p.2 ∧ ∀ q ∈ m, q.2 ≤ p.2 := by
  induction m generalizing acc with
  | nil => exact ⟨acc, rfl, Or.inl rfl, le_refl _, by simp⟩
  | cons x xs ih =>
    simp only [List.foldl_cons]
    by_cases hx : acc.2 < x.2
    · rw [if_pos hx]
      obtain ⟨p, hfold, hmem, hle, hall⟩ := ih x
      refine ⟨p, hfold, ?_, le_of_lt (lt_of_lt_of_le hx hle), ?_⟩
      · rcases hmem with h | h
        · exact Or.inr (h ▸ List.mem_cons_self x xs)
        · exact Or.inr (List.mem_cons_of_mem x h)
      · intro q hq
        rcases List.mem_cons.mp hq with h | h
        · rw [h]
          exact hle
        · exact hall q h
    · rw [if_neg hx]
      obtain ⟨p, hfold, hmem, hle, hall⟩ := ih acc
      refine ⟨p, hfold, ?_, hle, ?_⟩
      · rcases hmem with h | h
        · exact Or.inl h
        · exact Or.inr (List.mem_cons_of_mem x h)
      · intro q hq
        rcases List.mem_cons.mp hq with h | h
        · rw [h]
          exact le_trans (not_lt.mp hx) hle
        · exact hall q h

theorem maxPairByVal_spec {m : List (String × ℚ)} (hne : m ≠ []) :
    ∃ p, maxPairByVal m = some p ∧ p ∈ m ∧ ∀ q ∈ m, q.2 ≤ p.2 := by
  cases m with
  | nil => exact absurd rfl hne
  | cons x xs =>
    unfold maxPairByVal
    simp only [List.foldl_cons]
    obtain ⟨p, hfold, hmem, hle, hall⟩ := maxPairAux_spec xs x
    refine ⟨p, hfold, ?_, ?_⟩
    · rcases hmem with h | h
      · exact h ▸ List.mem_cons_self x xs
      · exact List.mem_cons_of_mem x h
    · intro q hq
      rcases List.mem_cons.mp hq with h | h
      · rw [h]
        exact hle
      · exact hall q h

theorem minPairAux_spec (m : List (String × ℚ)) (acc : String × ℚ) :
    ∃ p, m.foldl
        (fun acc p =>
          match acc with
          | none => some p
          | some q => if p.2 < q.2 then some p else some q)
        (some acc) = some p
      ∧ (p = acc ∨ p ∈ m) ∧ p.2 ≤ acc.2 ∧ ∀ q ∈ m, p.2 ≤ q.2 := by
  induction m generalizing acc with
  | nil => exact ⟨acc, rfl, Or.inl rfl, le_refl _, by simp⟩
  | cons x xs ih =>
    simp only [List.foldl_cons]
    by_cases hx : x.2 < acc.2
    · rw [if_pos hx]
      obtain ⟨p, hfold, hmem, hle, hall⟩ := ih x
      refine ⟨p, hfold, ?_, le_trans hle (le_of_lt hx), ?_⟩
      · rcases hmem with h | h
        · exact Or.inr (h ▸ List.mem_cons_self x xs)
        · exact Or.inr (List.mem_cons_of_mem x h)
      · intro q hq
        rcases List.mem_cons.mp hq with h | h
        · rw [h]
          exact hle
        · exact hall q h
    · rw [if_neg hx]
      obtain ⟨p, hfold, hmem, hle, hall⟩ := ih acc
      refine ⟨p, hfold, ?_, hle, ?_⟩
      · rcases hmem with h | h
        · exact Or.inl h
        · exact Or.inr (List.mem_cons_of_mem x h)
      · intro q hq
        rcases List.mem_cons.mp hq with h | h
        · rw [h]
          exact le_trans hle (not_lt.mp hx)
        · exact hall q h

theorem minPairByVal_spec {m : List (String × ℚ)} (hne : m ≠ []) :
    ∃ p, minPairByVal m = some p ∧ p ∈ m ∧ ∀ q ∈ m, p.2 ≤ q.2 := by
  cases m with
  | nil => exact absurd rfl hne
  | cons x xs =>
    unfold minPairByVal
    simp only [List.foldl_cons]
    obtain ⟨p, hfold, hmem, hle, hall⟩ := minPairAux_spec xs x
    refine ⟨p, hfold, ?_, ?_⟩
    · rcases hmem with h | h
      · exact h ▸ List.mem_cons_self x xs
      · exact List.mem_cons_of_mem x h
    · intro q hq
      rcases List.mem_cons.mp hq with h | h
      · rw [h]
        exact hle
      · exact hall q h

theorem pyDictOf_aux (agents : List AAgent) (k : String)
    (hnd : (agents.map AAgent.id).Nodup) :
    ∀ m : List (String × ℚ), (∀ a ∈ agents, alookup a.id m = none) →
      agents.foldl (fun m a => upsert m a.id (fun _ => mget a k)) m
        = m ++ agents.map (fun a => (a.id, mget a k)) := by
  induction agents with
  | nil => intro m _; simp
  | cons a rest ih =>
    intro m hm
    rw [List.map_cons] at hnd
    obtain ⟨hna, hnd2⟩ := List.nodup_cons.mp hnd
    simp only [List.foldl_cons]
    have hup : upsert m a.id (fun _ => mget a k) = m ++ [(a.id, mget a k)] := by
      unfold upsert
      rw [hm a (List.mem_cons_self a rest)]
      simp
    rw [hup, ih hnd2]
    · simp
    · intro b hb
      rw [alookup_append, hm b (List.mem_cons_of_mem a hb)]
      have hne : ¬ a.id = b.id := by
        intro h
        apply hna
        rw [h]
        exact List.mem_map.mpr ⟨b, hb, rfl⟩
      simp [alookup, hne]

theorem pyDictOf_eq_map (agents : List AAgent) (k : String)
    (hnd : (agents.map AAgent.id).Nodup) :
    pyDictOf agents k = agents.map (fun a => (a.id, mget a k)) := by
  unfold pyDictOf
  rw [pyDictOf_aux agents k hnd [] (by simp [alookup])]
  simp

/-- C3: with fewer than two agents `_compare_agents` returns the
insufficient-data marker; otherwise (for distinct agent ids)
`best_accuracy` names an agent of maximal accuracy, `best_latency` one of
minimal average latency and `most_efficient` one of minimal average token
usage, and the performance ranking is a permutation of the index-tagged
agents sorted by `rankRel` — descending composite score with ties broken
by input position, i.e. a stable descending sort — where the composite
score is `accuracy*0.5 + max(0,(10-latency)*2) + consistency*0.3`. -/
theorem C3_comparative (agents : List AAgent) :
    (agents.length < 2 →
      compare_agents agents =
        .notAvailable "Need at least 2 agents for comparison")
    ∧ (2 ≤ agents.length → (agents.map AAgent.id).Nodup →
        ∃ ba bl me, compare_agents agents =
            .available (some ba) (some bl) (some me) (rank_agents agents)
          ∧ (∃ x ∈ agents, x.id = ba
              ∧ ∀ y ∈ agents, mget y "accuracy" ≤ mget x "accuracy")
          ∧ (∃ x ∈ agents, x.id = bl
              ∧ ∀ y ∈ agents, mget x "latency_avg" ≤ mget y "latency_avg")
          ∧ (∃ x ∈ agents, x.id = me
              ∧ ∀ y ∈ agents, mget x "tokens_avg" ≤ mget y "tokens_avg"))
    ∧ (∃ pairs : List (ℕ × AAgent),
        List.Perm pairs (withIdx agents)
        ∧ List.Sorted rankRel pairs
        ∧ rank_agents agents = pairs.map (fun p => rankEntryOf p.2))
    ∧ (∀ a : AAgent, (rankEntryOf a).score =
        mget a "accuracy" * 0.5 + max 0 ((10 - mget a "latency_avg") * 2)
          + mget a "consistency" * 0.3) := by
  refine ⟨?_, ?_, ?_, fun a => rfl⟩
  · intro h
    unfold compare_agents
    rw [if_pos h]
  · intro h hnd
    have hne : agents ≠ [] := by
      cases agents with
      | nil => simp at h
      | cons x xs => simp
    have hmapne : ∀ k : String,
        agents.map (fun a => (a.id, mget a k)) ≠ [] := by
      intro k hcon
      exact hne (List.map_eq_nil_iff.mp hcon)
    obtain ⟨pa, hpa, hpam, hpaall⟩ :=
      maxPairByVal_spec (m := agents.map (fun a => (a.id, mget a "accuracy")))
        (hmapne _)
    obtain ⟨pl, hpl, hplm, hplall⟩ :=
      minPairByVal_spec (m := agents.map (fun a => (a.id, mget a "latency_avg")))
        (hmapne _)
    obtain ⟨pt, hpt, hptm, hptall⟩ :=
      minPairByVal_spec (m := agents.map (fun a => (a.id, mget a "tokens_avg")))
        (hmapne _)
    refine ⟨pa.1, pl.1, pt.1, ?_, ?_, ?_, ?_⟩
    · unfold compare_agents
      rw [if_neg (not_lt.mpr h)]
      rw [pyDictOf_eq_map agents "accuracy" hnd,
        pyDictOf_eq_map agents "latency_avg" hnd,
        pyDictOf_eq_map agents "tokens_avg" hnd,
        hpa, hpl, hpt]
      rfl
    · obtain ⟨x, hx, hxp⟩ := List.mem_map.mp hpam
      refine ⟨x, hx, congrArg Prod.fst hxp, ?_⟩
      intro y hy
      have := hpaall (y.id, mget y "accuracy") (List.mem_map.mpr ⟨y, hy, rfl⟩)
      calc mget y "accuracy" ≤ pa.2 := this
        _ = mget x "accuracy" := (congrArg Prod.snd hxp).symm
    · obtain ⟨x, hx, hxp⟩ := List.mem_map.mp hplm
      refine ⟨x, hx, congrArg Prod.fst hxp, ?_⟩
      intro y hy
      have := hplall (y.id, mget y "latency_avg") (List.mem_map.mpr ⟨y, hy, rfl⟩)
      calc mget x "latency_avg" = pl.2 := congrArg Prod.snd hxp
        _ ≤ mget y "latency_avg" := this
    · obtain ⟨x, hx, hxp⟩ := List.mem_map.mp hptm
      refine ⟨x, hx, congrArg Prod.fst hxp, ?_⟩
      intro y hy
      have := hptall (y.id, mget y "tokens_avg") (List.mem_map.mpr ⟨y, hy, rfl⟩)
      calc mget x "tokens_avg" = pt.2 := congrArg Prod.snd hxp
        _ ≤ mget y "tokens_avg" := this
  · refine ⟨(withIdx agents).insertionSort rankRel, ?_, ?_, rfl⟩
    · exact List.perm_insertionSort rankRel (withIdx agents)
    · exact List.sorted_insertionSort rankRel (withIdx agents)

/-- The two-agent example of the claim: accuracies 80/90, latencies 2/1. -/
def exC3 : List AAgent :=
  [{ id := "agent-a", metrics := [("accuracy", 80), ("latency_avg", 2)]
     category_scores := [] },
   { id := "agent-b", metrics := [("accuracy", 90), ("latency_avg", 1)]
     category_scores := [] }]

theorem C3_comparative_witness :
    2 ≤ exC3.length
    ∧ (exC3.map AAgent.id).Nodup
    ∧ (∃ ba bl me, compare_agents exC3 =
          .available (some ba) (some bl) (some me) (rank_agents exC3)
        ∧ (∃ x ∈ exC3, x.id = ba
            ∧ ∀ y ∈ exC3, mget y "accuracy" ≤ mget x "accuracy")
        ∧ (∃ x ∈ exC3, x.id = bl
            ∧ ∀ y ∈ exC3, mget x "latency_avg" ≤ mget y "latency_avg")
        ∧ (∃ x ∈ exC3, x.id = me
            ∧ ∀ y ∈ exC3, mget x "tokens_avg" ≤ mget y "tokens_avg"))
    ∧ compare_agents exC3 =
        .available (some "agent-b") (some "agent-b") (some "agent-a")
          [{ agent_id := "agent-b", score := 63, accuracy := 90, latency := 1
             consistency := 0 },
           { agent_id := "agent-a", score := 56, accuracy := 80, latency := 2
             consistency := 0 }] := by
  refine ⟨by norm_num [exC3], by simp [exC3], ?_, ?_⟩
  · exact (C3_comparative exC3).2.1 (by norm_num [exC3]) (by simp [exC3])
  · norm_num [compare_agents, exC3, pyDictOf, upsert, alookup, mget,
      maxPairByVal, minPairByVal, rank_agents, withIdx, withIdxFrom,
      List.insertionSort, List.orderedInsert, rankRel, rankEntryOf,
      composite_score,
      show ("accuracy" : String) ≠ "latency_avg" from by decide,
      show ("accuracy" : String) ≠ "tokens_avg" from by decide,
      show ("latency_avg" : String) ≠ "tokens_avg" from by decide,
      show ("accuracy" : String) ≠ "consistency" from by decide,
      show ("latency_avg" : String) ≠ "consistency" from by decide,
      show ("agent-a" : String) ≠ "agent-b" from by decide]

end ABench
